import Mathlib

/-!
Verification of the buffer-pool / disk-manager core of a small RDBMS
(files src/disk.rs and src/buffer.rs), via a shallow embedding.

Modelling conventions:
* u64 values (page ids, counters) are Nat; the page-offset computation
  PAGE_SIZE * page_id wraps modulo 2^64 exactly as release-mode u64
  multiplication does (this wrap is the subject of one claim).
* Rc sharing is modelled by a per-frame count of outstanding client
  clones (field handles). Rc::get_mut on the frame's buffer succeeds
  iff handles = 0, i.e. the pool is the sole owner.
* Disk I/O is modelled with the heap file as an offset-indexed
  association list of pages plus a byte size, an append-only journal of
  the I/O operations that succeeded (events), and an environment fault
  schedule (faults applied to a running operation counter) that makes a
  write / read / sync fail the way a device error would.
* The Rc::get_mut(..).unwrap() calls are modelled by an explicit
  panicked outcome; index-out-of-bounds panics and a hypothetical
  non-termination of the clock sweep are modelled by a stuck outcome
  (the sweep is given explicit fuel; a theorem shows the fuel given is
  always sufficient).
-/

def PAGE_SIZE : Nat := 4096

/-- The u64 modulus. -/
def U64 : Nat := 2 ^ 64

/-- PageId is a u64; the reserved invalid sentinel is u64::MAX. -/
def INVALID_PAGE_ID : Nat := U64 - 1

/-- Byte offset of a page in the heap file: PAGE_SIZE * page_id with
u64 wrap-around, as computed by read_page_data / write_page_data. -/
def pageOffset (page_id : Nat) : Nat := PAGE_SIZE * page_id % U64

/-- A page is the 4096-byte block, bytes as Nat. -/
abbrev Page := List Nat

def defaultPage : Page := List.replicate PAGE_SIZE 0

/-- One successful disk operation, in the order the disk performed it. -/
inductive DiskEvent
  | write (page_id : Nat) (offset : Nat) (data : Page)
  | read (page_id : Nat) (offset : Nat)
  | sync
deriving DecidableEq, Repr

/-- Generic association-list lookup keyed by Nat (first match wins). -/
def assocLookup {α : Type} : List (Nat × α) → Nat → Option α
  | [], _ => none
  | e :: rest, k => if e.1 = k then some e.2 else assocLookup rest k

structure DiskManager where
  fileSize : Nat
  contents : List (Nat × Page)
  next_page_id : Nat
  events : List DiskEvent
  faults : Nat → Bool
  opIdx : Nat

namespace DiskManager

/-- DiskManager::new over a heap file of fileSize bytes: resume
allocation at fileSize / PAGE_SIZE. -/
def new (fileSize : Nat) (contents : List (Nat × Page)) (faults : Nat → Bool) : DiskManager :=
  { fileSize := fileSize
    contents := contents
    next_page_id := fileSize / PAGE_SIZE
    events := []
    faults := faults
    opIdx := 0 }

/-- DiskManager::allocate_page: return the counter, increment it. Never
fails and performs no I/O. -/
def allocate_page (d : DiskManager) : Nat × DiskManager :=
  (d.next_page_id, { d with next_page_id := d.next_page_id + 1 })

/-- DiskManager::write_page_data: seek to pageOffset, write the page,
extending the file; fails only on a device fault. -/
def write_page_data (d : DiskManager) (page_id : Nat) (data : Page) : Bool × DiskManager :=
  let offset := pageOffset page_id
  if d.faults d.opIdx then
    (false, { d with opIdx := d.opIdx + 1 })
  else
    (true,
      { d with
        contents := (offset, data) :: d.contents
        fileSize := max d.fileSize (offset + PAGE_SIZE)
        events := d.events ++ [DiskEvent.write page_id offset data]
        opIdx := d.opIdx + 1 })

/-- DiskManager::read_page_data: seek to pageOffset and read exactly
PAGE_SIZE bytes; reading past end of file is an error, not zero-fill. -/
def read_page_data (d : DiskManager) (page_id : Nat) : Option Page × DiskManager :=
  let offset := pageOffset page_id
  if d.faults d.opIdx then
    (none, { d with opIdx := d.opIdx + 1 })
  else if offset + PAGE_SIZE ≤ d.fileSize then
    (some ((assocLookup d.contents offset).getD defaultPage),
      { d with
        events := d.events ++ [DiskEvent.read page_id offset]
        opIdx := d.opIdx + 1 })
  else
    (none, { d with opIdx := d.opIdx + 1 })

/-- DiskManager::sync: flush and sync_all; fails only on a device fault. -/
def sync (d : DiskManager) : Bool × DiskManager :=
  if d.faults d.opIdx then
    (false, { d with opIdx := d.opIdx + 1 })
  else
    (true, { d with events := d.events ++ [DiskEvent.sync], opIdx := d.opIdx + 1 })

end DiskManager

/-- The Buffer of buffer.rs:
page_id, the 4096-byte page (RefCell), and the dirty flag (Cell). -/
structure Buffer where
  page_id : Nat
  page : Page
  is_dirty : Bool
deriving DecidableEq, Repr

/-- Buffer::default(): INVALID_PAGE_ID, zero-filled page, not dirty. -/
def defaultBuffer : Buffer :=
  { page_id := INVALID_PAGE_ID, page := defaultPage, is_dirty := false }

/-- A Frame of the pool: clock-sweep usage counter plus the Rc Buffer.
handles counts the outstanding client clones of the Rc; Rc::get_mut
succeeds iff handles = 0. -/
structure Frame where
  used_count : Nat
  buffer : Buffer
  handles : Nat
deriving DecidableEq, Repr

def defaultFrame : Frame :=
  { used_count := 0, buffer := defaultBuffer, handles := 0 }

/-- Frame at index i of the pool (the unreachable out-of-range case is
given the default frame; lemmas always carry the in-range bound). -/
def getFrame (bufs : List Frame) (i : Nat) : Frame :=
  bufs.getD i defaultFrame

/-- Total of all usage counters; only used to size the sweep's fuel. -/
def sumUsed : List Frame → Nat
  | [] => 0
  | f :: rest => f.used_count + sumUsed rest

structure BufferPool where
  buffers : List Frame
  next_victim_id : Nat
deriving DecidableEq, Repr

inductive EvictResult
  | found (victim : Nat)
  | noFree
  | stuck
deriving DecidableEq, Repr

/-- The body of BufferPool::evict (the clock-sweep loop), with explicit
fuel. Each iteration inspects the frame under the clock hand:
a zero usage counter selects it (hand left in place); otherwise a sole-
owned frame is decremented (consecutive_pinned resets) and the hand
advances; otherwise the frame is pinned: consecutive_pinned increments
and reaching pool_size aborts with noFree (hand left in place).
stuck marks fuel exhaustion or an out-of-range hand (a Rust panic). -/
def evictLoop : Nat → List Frame → Nat → Nat → EvictResult × List Frame × Nat
  | 0, bufs, hand, _ => (EvictResult.stuck, bufs, hand)
  | fuel + 1, bufs, hand, consecutive_pinned =>
    match bufs[hand]? with
    | none => (EvictResult.stuck, bufs, hand)
    | some frame =>
      if frame.used_count = 0 then
        (EvictResult.found hand, bufs, hand)
      else if frame.handles = 0 then
        evictLoop fuel (bufs.set hand { frame with used_count := frame.used_count - 1 })
          ((hand + 1) % bufs.length) 0
      else if consecutive_pinned + 1 ≥ bufs.length then
        (EvictResult.noFree, bufs, hand)
      else
        evictLoop fuel bufs ((hand + 1) % bufs.length) (consecutive_pinned + 1)

/-- Fuel that provably suffices for the sweep to reach its own exit. -/
def evictFuel (bufs : List Frame) : Nat :=
  sumUsed bufs * (bufs.length + 1) + bufs.length + 1

namespace BufferPool

/-- BufferPool::new(pool_size): default frames, hand at frame 0. -/
def new (pool_size : Nat) : BufferPool :=
  { buffers := List.replicate pool_size defaultFrame, next_victim_id := 0 }

def size (p : BufferPool) : Nat := p.buffers.length

def increment_id (p : BufferPool) (buffer_id : Nat) : Nat :=
  (buffer_id + 1) % p.size

/-- BufferPool::evict: run the clock sweep from the current hand. -/
def evict (p : BufferPool) : EvictResult × BufferPool :=
  let r := evictLoop (evictFuel p.buffers) p.buffers p.next_victim_id 0
  (r.1, { buffers := r.2.1, next_victim_id := r.2.2 })

end BufferPool

/-- Removal of a key from the page table (HashMap::remove; keys are kept
unique by construction). -/
def tableRemove : List (Nat × Nat) → Nat → List (Nat × Nat)
  | [], _ => []
  | e :: rest, k => if e.1 = k then tableRemove rest k else e :: tableRemove rest k

/-- HashMap::insert: replaces any entry with the same key. -/
def tableInsert (t : List (Nat × Nat)) (k v : Nat) : List (Nat × Nat) :=
  tableRemove t k ++ [(k, v)]

/-- Outcome of fetch_page / create_page. ok carries the returned handle
(the id of the frame whose Rc Buffer the client now shares). panicked
models Rc::get_mut(..).unwrap() failing; stuck models the sweep getting
stuck (never happens; proved). -/
inductive PageOutcome
  | ok (buffer_id : Nat)
  | noFreeBuffer
  | ioError
  | panicked
  | stuck
deriving DecidableEq, Repr

structure BufferPoolManager where
  disk : DiskManager
  pool : BufferPool
  page_table : List (Nat × Nat)

namespace BufferPoolManager

/-- BufferPoolManager::fetch_page. Hit: bump used_count, clone the Rc.
Miss: evict; write the victim back if dirty; set the buffer's page_id,
clear dirty, read the requested page from disk (a failure here returns
early, after the buffer was renamed but before the page table is
touched); on success set used_count = 1, remove the victim's old page
id from the table and insert the new entry. -/
def fetch_page (m : BufferPoolManager) (page_id : Nat) :
    PageOutcome × BufferPoolManager :=
  match assocLookup m.page_table page_id with
  | some buffer_id =>
    let frame := getFrame m.pool.buffers buffer_id
    let frame1 := { frame with
      used_count := frame.used_count + 1
      handles := frame.handles + 1 }
    (PageOutcome.ok buffer_id,
      { m with pool := { m.pool with buffers := m.pool.buffers.set buffer_id frame1 } })
  | none =>
    match m.pool.evict with
    | (EvictResult.stuck, pool1) => (PageOutcome.stuck, { m with pool := pool1 })
    | (EvictResult.noFree, pool1) => (PageOutcome.noFreeBuffer, { m with pool := pool1 })
    | (EvictResult.found buffer_id, pool1) =>
      let frame := getFrame pool1.buffers buffer_id
      let evict_page_id := frame.buffer.page_id
      if frame.handles ≠ 0 then
        (PageOutcome.panicked, { m with pool := pool1 })
      else
        match (if frame.buffer.is_dirty
               then m.disk.write_page_data evict_page_id frame.buffer.page
               else (true, m.disk)) with
        | (false, d1) => (PageOutcome.ioError, { m with disk := d1, pool := pool1 })
        | (true, d1) =>
          match d1.read_page_data page_id with
          | (none, d2) =>
            let frame1 := { frame with
              buffer := { frame.buffer with page_id := page_id, is_dirty := false } }
            (PageOutcome.ioError,
              { m with
                disk := d2
                pool := { pool1 with buffers := pool1.buffers.set buffer_id frame1 } })
          | (some data, d2) =>
            let frame1 : Frame :=
              { used_count := 1
                handles := frame.handles + 1
                buffer := { page_id := page_id, page := data, is_dirty := false } }
            (PageOutcome.ok buffer_id,
              { m with
                disk := d2
                pool := { pool1 with buffers := pool1.buffers.set buffer_id frame1 }
                page_table := tableInsert (tableRemove m.page_table evict_page_id)
                  page_id buffer_id })

/-- BufferPoolManager::create_page: evict, write the victim back if
dirty, allocate a fresh page id, reset the buffer to default with the
new id, mark dirty, used_count = 1, update the page table. -/
def create_page (m : BufferPoolManager) : PageOutcome × BufferPoolManager :=
  match m.pool.evict with
  | (EvictResult.stuck, pool1) => (PageOutcome.stuck, { m with pool := pool1 })
  | (EvictResult.noFree, pool1) => (PageOutcome.noFreeBuffer, { m with pool := pool1 })
  | (EvictResult.found buffer_id, pool1) =>
    let frame := getFrame pool1.buffers buffer_id
    let evict_page_id := frame.buffer.page_id
    if frame.handles ≠ 0 then
      (PageOutcome.panicked, { m with pool := pool1 })
    else
      match (if frame.buffer.is_dirty
             then m.disk.write_page_data evict_page_id frame.buffer.page
             else (true, m.disk)) with
      | (false, d1) => (PageOutcome.ioError, { m with disk := d1, pool := pool1 })
      | (true, d1) =>
        match d1.allocate_page with
        | (page_id, d2) =>
          let frame1 : Frame :=
            { used_count := 1
              handles := frame.handles + 1
              buffer := { defaultBuffer with page_id := page_id, is_dirty := true } }
          (PageOutcome.ok buffer_id,
            { m with
              disk := d2
              pool := { pool1 with buffers := pool1.buffers.set buffer_id frame1 }
              page_table := tableInsert (tableRemove m.page_table evict_page_id)
                page_id buffer_id })

/-- The loop body of BufferPoolManager::flush: for each page-table
entry, write the frame's bytes at the entry's page id; on success clear
the frame's dirty flag and continue, on failure stop (first error). -/
def flushLoop : List (Nat × Nat) → DiskManager → List Frame →
    Bool × DiskManager × List Frame
  | [], d, bufs => (true, d, bufs)
  | e :: rest, d, bufs =>
    let frame := getFrame bufs e.2
    match d.write_page_data e.1 frame.buffer.page with
    | (false, d1) => (false, d1, bufs)
    | (true, d1) =>
      flushLoop rest d1
        (bufs.set e.2 { frame with buffer := { frame.buffer with is_dirty := false } })

/-- BufferPoolManager::flush: write back every resident page, then one
sync; the first I/O error is returned. -/
def flush (m : BufferPoolManager) : Bool × BufferPoolManager :=
  match flushLoop m.page_table m.disk m.pool.buffers with
  | (false, d1, bufs1) =>
    (false, { m with disk := d1, pool := { m.pool with buffers := bufs1 } })
  | (true, d1, bufs1) =>
    match d1.sync with
    | (sOk, d2) =>
      (sOk, { m with disk := d2, pool := { m.pool with buffers := bufs1 } })

/-- A client handle going out of scope: the drop of one Rc clone of
frame i's buffer (a no-op if the client holds none). -/
def dropHandle (m : BufferPoolManager) (i : Nat) : BufferPoolManager :=
  let frame := getFrame m.pool.buffers i
  { m with pool := { m.pool with
      buffers := m.pool.buffers.set i { frame with handles := frame.handles - 1 } } }

end BufferPoolManager

/-- The public operations a client can perform on the manager. -/
inductive Op
  | fetch (page_id : Nat)
  | create
  | flushOp
  | dropOp (i : Nat)
deriving DecidableEq, Repr

def applyOp (m : BufferPoolManager) : Op → BufferPoolManager
  | Op.fetch page_id => (m.fetch_page page_id).2
  | Op.create => (m.create_page).2
  | Op.flushOp => (m.flush).2
  | Op.dropOp i => m.dropHandle i

/-- Run a sequence of public operations from a starting state. -/
def run (m : BufferPoolManager) (ops : List Op) : BufferPoolManager :=
  ops.foldl applyOp m

/-- BufferPoolManager::new over a fresh pool and a disk manager. -/
def initManager (pool_size : Nat) (d : DiskManager) : BufferPoolManager :=
  { disk := d, pool := BufferPool.new pool_size, page_table := [] }

/-- The all-false fault schedule: a fault-free device. -/
def noFault : Nat → Bool := fun _ => false

/-- The environment never injects an I/O fault. -/
def NoFaults (d : DiskManager) : Prop := ∀ k, d.faults k = false

/-- The frame part of the pinning invariant: a frame whose Buffer is
shared with a client (outstanding handle) has used_count at least 1,
so the used_count == 0 test of the sweep never selects it. -/
def InvFrames (bufs : List Frame) : Prop :=
  ∀ i, i < bufs.length → (getFrame bufs i).handles ≠ 0 →
    1 ≤ (getFrame bufs i).used_count

/-- The state invariant maintained by every public operation: the clock
hand is in range, shared frames are protected by their usage counter,
and page-table entries point into the pool. -/
def StateInv (m : BufferPoolManager) : Prop :=
  m.pool.next_victim_id < m.pool.buffers.length ∧
  InvFrames m.pool.buffers ∧
  ∀ e ∈ m.page_table, e.2 < m.pool.buffers.length

/-- Pool of one frame over an empty fault-free heap file. -/
def onePoolInit : BufferPoolManager := initManager 1 (DiskManager.new 0 [] noFault)

/-- Pool of two frames over an empty fault-free heap file. -/
def twoPoolInit : BufferPoolManager := initManager 2 (DiskManager.new 0 [] noFault)

/-- Three operations after which the page table contradicts the frame:
create page 0, drop its handle, then fetch the never-written page 2
(the disk read fails at end-of-file after the victim buffer was already
renamed to page 2). -/
def readFailOps : List Op := [Op.create, Op.dropOp 0, Op.fetch 2]

/-- Ten operations on the two-frame pool leading to a state in which
page 3 is resident in frame 1 and pinned by an outstanding handle,
while the stale frame 0 also carries page id 3 after an earlier failed
read. The next fetch of another id then evicts frame 0 and removes
page 3's page-table entry. -/
def pinLossOps : List Op :=
  [Op.create, Op.dropOp 0, Op.create, Op.dropOp 1, Op.fetch 3,
   Op.fetch 0, Op.create, Op.dropOp 1, Op.create, Op.dropOp 0]

theorem getFrame_eq_of_getElem? {bufs : List Frame} {i : Nat} {f : Frame}
    (h : bufs[i]? = some f) : getFrame bufs i = f := by
  simp [getFrame, List.getD_eq_getElem?_getD, h]

theorem getFrame_set_self {bufs : List Frame} {i : Nat} (f : Frame)
    (h : i < bufs.length) : getFrame (bufs.set i f) i = f := by
  simp [getFrame, List.getD_eq_getElem?_getD, List.getElem?_set_self h]

theorem getFrame_set_ne {bufs : List Frame} {i j : Nat} (f : Frame)
    (h : i ≠ j) : getFrame (bufs.set i f) j = getFrame bufs j := by
  simp [getFrame, List.getD_eq_getElem?_getD, List.getElem?_set_ne h]

theorem sumUsed_set : ∀ (bufs : List Frame) (i : Nat) (f g : Frame),
    bufs[i]? = some f →
    sumUsed (bufs.set i g) + f.used_count = sumUsed bufs + g.used_count := by
  intro bufs
  induction bufs with
  | nil => intro i f g h; simp at h
  | cons b rest ih =>
    intro i f g h
    cases i with
    | zero =>
      simp only [List.getElem?_cons_zero, Option.some_inj] at h
      subst h
      simp [sumUsed]
      omega
    | succ n =>
      simp only [List.getElem?_cons_succ] at h
      have := ih n f g h
      simp [sumUsed]
      omega

theorem evictLoop_length : ∀ (fuel : Nat) (bufs : List Frame) (hand cp : Nat),
    ((evictLoop fuel bufs hand cp).2.1).length = bufs.length := by
  intro fuel
  induction fuel with
  | zero => intro bufs hand cp; rfl
  | succ n ih =>
    intro bufs hand cp
    simp only [evictLoop]
    cases hb : bufs[hand]? with
    | none => rfl
    | some frame =>
      by_cases h0 : frame.used_count = 0
      · simp [h0]
      · by_cases h1 : frame.handles = 0
        · simp only [h0, if_false, h1, if_true]
          rw [ih]
          exact List.length_set ..
        · by_cases h2 : cp + 1 ≥ bufs.length
          · simp [h0, h1, h2]
          · simp only [h0, if_false, h1, h2, if_true]
            rw [ih]

theorem lt_length_of_getElem? {bufs : List Frame} {i : Nat} {f : Frame}
    (h : bufs[i]? = some f) : i < bufs.length :=
  (List.getElem?_eq_some_iff.mp h).1

theorem evictLoop_oob {bufs : List Frame} {hand : Nat} (n cp : Nat)
    (hb : bufs[hand]? = none) :
    evictLoop (n + 1) bufs hand cp = (EvictResult.stuck, bufs, hand) := by
  simp only [evictLoop, hb]

theorem evictLoop_select {bufs : List Frame} {hand : Nat} {frame : Frame} (n cp : Nat)
    (hb : bufs[hand]? = some frame) (h0 : frame.used_count = 0) :
    evictLoop (n + 1) bufs hand cp = (EvictResult.found hand, bufs, hand) := by
  simp only [evictLoop, hb]
  rw [if_pos h0]

theorem evictLoop_decr {bufs : List Frame} {hand : Nat} {frame : Frame} (n cp : Nat)
    (hb : bufs[hand]? = some frame) (h0 : frame.used_count ≠ 0) (h1 : frame.handles = 0) :
    evictLoop (n + 1) bufs hand cp =
      evictLoop n (bufs.set hand { frame with used_count := frame.used_count - 1 })
        ((hand + 1) % bufs.length) 0 := by
  simp only [evictLoop, hb]
  rw [if_neg h0, if_pos h1]

theorem evictLoop_abort {bufs : List Frame} {hand : Nat} {frame : Frame} (n cp : Nat)
    (hb : bufs[hand]? = some frame) (h0 : frame.used_count ≠ 0) (h1 : frame.handles ≠ 0)
    (h2 : cp + 1 ≥ bufs.length) :
    evictLoop (n + 1) bufs hand cp = (EvictResult.noFree, bufs, hand) := by
  simp only [evictLoop, hb]
  rw [if_neg h0, if_neg h1, if_pos h2]

theorem evictLoop_pinned {bufs : List Frame} {hand : Nat} {frame : Frame} (n cp : Nat)
    (hb : bufs[hand]? = some frame) (h0 : frame.used_count ≠ 0) (h1 : frame.handles ≠ 0)
    (h2 : ¬ cp + 1 ≥ bufs.length) :
    evictLoop (n + 1) bufs hand cp =
      evictLoop n bufs ((hand + 1) % bufs.length) (cp + 1) := by
  simp only [evictLoop, hb]
  rw [if_neg h0, if_neg h1, if_neg h2]

/-- The sweep never touches a buffer or an outstanding-handle count, and
never changes the usage counter of a pinned (shared) frame. -/
theorem evictLoop_frames : ∀ (fuel : Nat) (bufs : List Frame) (hand cp i : Nat),
    (getFrame (evictLoop fuel bufs hand cp).2.1 i).handles = (getFrame bufs i).handles ∧
    (getFrame (evictLoop fuel bufs hand cp).2.1 i).buffer = (getFrame bufs i).buffer ∧
    ((getFrame bufs i).handles ≠ 0 →
      (getFrame (evictLoop fuel bufs hand cp).2.1 i).used_count =
        (getFrame bufs i).used_count) := by
  intro fuel
  induction fuel with
  | zero => intro bufs hand cp i; exact ⟨rfl, rfl, fun _ => rfl⟩
  | succ n ih =>
    intro bufs hand cp i
    cases hb : bufs[hand]? with
    | none => rw [evictLoop_oob n cp hb]; exact ⟨rfl, rfl, fun _ => rfl⟩
    | some frame =>
      by_cases h0 : frame.used_count = 0
      · rw [evictLoop_select n cp hb h0]; exact ⟨rfl, rfl, fun _ => rfl⟩
      · by_cases h1 : frame.handles = 0
        · rw [evictLoop_decr n cp hb h0 h1]
          have hand_lt : hand < bufs.length := lt_length_of_getElem? hb
          have hframe : getFrame bufs hand = frame := getFrame_eq_of_getElem? hb
          have hih := ih (bufs.set hand { frame with used_count := frame.used_count - 1 })
            ((hand + 1) % bufs.length) 0 i
          by_cases hi : hand = i
          · subst hi
            have hset : getFrame
                (bufs.set hand { frame with used_count := frame.used_count - 1 }) hand =
                { frame with used_count := frame.used_count - 1 } :=
              getFrame_set_self _ hand_lt
            refine ⟨?_, ?_, ?_⟩
            · rw [hih.1, hset, hframe]
            · rw [hih.2.1, hset, hframe]
            · intro hh
              rw [hframe] at hh
              exact absurd h1 hh
          · have hset : getFrame
                (bufs.set hand { frame with used_count := frame.used_count - 1 }) i =
                getFrame bufs i := getFrame_set_ne _ hi
            exact ⟨by rw [hih.1, hset], by rw [hih.2.1, hset],
              fun hh => by rw [hih.2.2 (by rw [hset]; exact hh), hset]⟩
        · by_cases h2 : cp + 1 ≥ bufs.length
          · rw [evictLoop_abort n cp hb h0 h1 h2]; exact ⟨rfl, rfl, fun _ => rfl⟩
          · rw [evictLoop_pinned n cp hb h0 h1 h2]
            exact ih bufs ((hand + 1) % bufs.length) (cp + 1) i

/-- When the sweep selects a victim, the hand is left pointing at it,
it is in range, and its usage counter is zero in the resulting pool. -/
theorem evictLoop_found : ∀ (fuel : Nat) (bufs : List Frame) (hand cp v : Nat),
    (evictLoop fuel bufs hand cp).1 = EvictResult.found v →
    (evictLoop fuel bufs hand cp).2.2 = v ∧ v < bufs.length ∧
    (getFrame (evictLoop fuel bufs hand cp).2.1 v).used_count = 0 := by
  intro fuel
  induction fuel with
  | zero =>
    intro bufs hand cp v h
    exact absurd h (by simp [evictLoop])
  | succ n ih =>
    intro bufs hand cp v h
    cases hb : bufs[hand]? with
    | none => rw [evictLoop_oob n cp hb] at h; exact absurd h (by simp)
    | some frame =>
      by_cases h0 : frame.used_count = 0
      · rw [evictLoop_select n cp hb h0] at h ⊢
        have hv : hand = v := by
          have := h
          simpa using this
        subst hv
        refine ⟨rfl, lt_length_of_getElem? hb, ?_⟩
        rw [getFrame_eq_of_getElem? hb]
        exact h0
      · by_cases h1 : frame.handles = 0
        · rw [evictLoop_decr n cp hb h0 h1] at h ⊢
          have := ih _ _ _ _ h
          refine ⟨this.1, ?_, this.2.2⟩
          have hlen := this.2.1
          rwa [List.length_set] at hlen
        · by_cases h2 : cp + 1 ≥ bufs.length
          · rw [evictLoop_abort n cp hb h0 h1 h2] at h; exact absurd h (by simp)
          · rw [evictLoop_pinned n cp hb h0 h1 h2] at h ⊢
            exact ih _ _ _ _ h

/-- The hand stays in range through the sweep. -/
theorem evictLoop_hand_lt : ∀ (fuel : Nat) (bufs : List Frame) (hand cp : Nat),
    hand < bufs.length →
    (evictLoop fuel bufs hand cp).2.2 < bufs.length := by
  intro fuel
  induction fuel with
  | zero => intro bufs hand cp h; exact h
  | succ n ih =>
    intro bufs hand cp h
    cases hb : bufs[hand]? with
    | none => rw [evictLoop_oob n cp hb]; exact h
    | some frame =>
      by_cases h0 : frame.used_count = 0
      · rw [evictLoop_select n cp hb h0]; exact h
      · by_cases h1 : frame.handles = 0
        · rw [evictLoop_decr n cp hb h0 h1]
          have hmod : (hand + 1) % bufs.length < bufs.length := Nat.mod_lt _ (by omega)
          have := ih (bufs.set hand { frame with used_count := frame.used_count - 1 })
            ((hand + 1) % bufs.length) 0 (by rw [List.length_set]; exact hmod)
          rwa [List.length_set] at this
        · by_cases h2 : cp + 1 ≥ bufs.length
          · rw [evictLoop_abort n cp hb h0 h1 h2]; exact h
          · rw [evictLoop_pinned n cp hb h0 h1 h2]
            exact ih bufs ((hand + 1) % bufs.length) (cp + 1) (Nat.mod_lt _ (by omega))

/-- Fuel adequacy: with fuel exceeding the termination measure
sumUsed * (size + 1) + (size - consecutive_pinned), the sweep reaches
one of its own exits — it never runs out of fuel. -/
theorem evictLoop_no_stuck : ∀ (fuel : Nat) (bufs : List Frame) (hand cp : Nat),
    hand < bufs.length →
    sumUsed bufs * (bufs.length + 1) + (bufs.length - cp) < fuel →
    (evictLoop fuel bufs hand cp).1 ≠ EvictResult.stuck := by
  intro fuel
  induction fuel with
  | zero => intro bufs hand cp _ hf; omega
  | succ n ih =>
    intro bufs hand cp hh hf
    cases hb : bufs[hand]? with
    | none =>
      exact absurd (List.getElem?_eq_getElem hh) (by rw [hb]; simp)
    | some frame =>
      by_cases h0 : frame.used_count = 0
      · rw [evictLoop_select n cp hb h0]; simp
      · by_cases h1 : frame.handles = 0
        · rw [evictLoop_decr n cp hb h0 h1]
          set bufs1 := bufs.set hand { frame with used_count := frame.used_count - 1 }
            with hbufs1
          have hsum : sumUsed bufs1 + frame.used_count =
              sumUsed bufs + (frame.used_count - 1) :=
            sumUsed_set bufs hand frame _ hb
          have hlen : bufs1.length = bufs.length := List.length_set ..
          have hmod : (hand + 1) % bufs.length < bufs.length := Nat.mod_lt _ (by omega)
          have hfuel : sumUsed bufs1 * (bufs1.length + 1) + (bufs1.length - 0) < n := by
            rw [hlen]
            have hS : sumUsed bufs = sumUsed bufs1 + 1 := by omega
            rw [hS] at hf
            have hexp : (sumUsed bufs1 + 1) * (bufs.length + 1) =
                sumUsed bufs1 * (bufs.length + 1) + (bufs.length + 1) := by ring
            rw [hexp] at hf
            omega
          exact ih bufs1 ((hand + 1) % bufs.length) 0 (by rw [hlen]; exact hmod) hfuel
        · by_cases h2 : cp + 1 ≥ bufs.length
          · rw [evictLoop_abort n cp hb h0 h1 h2]; simp
          · rw [evictLoop_pinned n cp hb h0 h1 h2]
            have hmod : (hand + 1) % bufs.length < bufs.length := Nat.mod_lt _ (by omega)
            exact ih bufs ((hand + 1) % bufs.length) (cp + 1) hmod (by omega)

/-- If some frame within reach is unpinned, the sweep never reports
noFree: the consecutive-pinned counter is reset before it can reach
pool_size. -/
theorem evictLoop_not_noFree : ∀ (fuel : Nat) (bufs : List Frame) (hand cp : Nat),
    hand < bufs.length →
    (∃ d, d + cp < bufs.length ∧
      (getFrame bufs ((hand + d) % bufs.length)).handles = 0) →
    (evictLoop fuel bufs hand cp).1 ≠ EvictResult.noFree := by
  intro fuel
  induction fuel with
  | zero => intro bufs hand cp _ _; simp [evictLoop]
  | succ n ih =>
    intro bufs hand cp hh hex
    obtain ⟨d, hd, hdun⟩ := hex
    have hlen0 : bufs.length ≠ 0 := by omega
    cases hb : bufs[hand]? with
    | none =>
      exact absurd (List.getElem?_eq_getElem hh) (by rw [hb]; simp)
    | some frame =>
      have hframe : getFrame bufs hand = frame := getFrame_eq_of_getElem? hb
      by_cases h0 : frame.used_count = 0
      · rw [evictLoop_select n cp hb h0]; simp
      · by_cases h1 : frame.handles = 0
        · rw [evictLoop_decr n cp hb h0 h1]
          set bufs1 := bufs.set hand { frame with used_count := frame.used_count - 1 }
            with hbufs1
          have hlen : bufs1.length = bufs.length := List.length_set ..
          have hmod : (hand + 1) % bufs.length < bufs.length := Nat.mod_lt _ (by omega)
          have hkey : ((hand + 1) % bufs.length + (bufs.length - 1)) % bufs.length = hand := by
            rw [Nat.mod_add_mod]
            have : hand + 1 + (bufs.length - 1) = hand + bufs.length := by omega
            rw [this, Nat.add_mod_right]
            exact Nat.mod_eq_of_lt hh
          have hget : getFrame bufs1 hand =
              { frame with used_count := frame.used_count - 1 } :=
            getFrame_set_self _ hh
          exact ih bufs1 ((hand + 1) % bufs.length) 0
            (by rw [hlen]; exact hmod)
            (by
              refine ⟨bufs.length - 1, by omega, ?_⟩
              rw [hlen, hkey, hget]
              exact h1)
        · have hd0 : d ≠ 0 := by
            intro hd0
            subst hd0
            rw [Nat.add_zero, Nat.mod_eq_of_lt hh, hframe] at hdun
            exact h1 hdun
          have h2 : ¬ cp + 1 ≥ bufs.length := by omega
          rw [evictLoop_pinned n cp hb h0 h1 h2]
          have hmod : (hand + 1) % bufs.length < bufs.length := Nat.mod_lt _ (by omega)
          refine ih bufs ((hand + 1) % bufs.length) (cp + 1) hmod ⟨d - 1, by omega, ?_⟩
          rw [Nat.mod_add_mod]
          have : hand + 1 + (d - 1) = hand + d := by omega
          rw [this]
          exact hdun

/-- If every frame is pinned and has a nonzero usage counter, the sweep
reports noFree within one full cycle. -/
theorem evictLoop_allPinned : ∀ (fuel : Nat) (bufs : List Frame) (hand cp : Nat),
    (∀ i, i < bufs.length → (getFrame bufs i).handles ≠ 0 ∧
      (getFrame bufs i).used_count ≠ 0) →
    hand < bufs.length → cp < bufs.length → bufs.length - cp ≤ fuel →
    (evictLoop fuel bufs hand cp).1 = EvictResult.noFree := by
  intro fuel
  induction fuel with
  | zero => intro bufs hand cp _ _ hcp hf; omega
  | succ n ih =>
    intro bufs hand cp hall hh hcp hf
    cases hb : bufs[hand]? with
    | none =>
      exact absurd (List.getElem?_eq_getElem hh) (by rw [hb]; simp)
    | some frame =>
      have hframe : getFrame bufs hand = frame := getFrame_eq_of_getElem? hb
      have hpin := hall hand hh
      rw [hframe] at hpin
      by_cases h2 : cp + 1 ≥ bufs.length
      · rw [evictLoop_abort n cp hb hpin.2 hpin.1 h2]
      · rw [evictLoop_pinned n cp hb hpin.2 hpin.1 h2]
        exact ih bufs ((hand + 1) % bufs.length) (cp + 1) hall
          (Nat.mod_lt _ (by omega)) (by omega) (by omega)

theorem evict_buffers_length (p : BufferPool) :
    (p.evict).2.buffers.length = p.buffers.length :=
  evictLoop_length ..

theorem evict_hand_lt (p : BufferPool) (h : p.next_victim_id < p.buffers.length) :
    (p.evict).2.next_victim_id < p.buffers.length :=
  evictLoop_hand_lt _ _ _ _ h

/-- BufferPool::evict with the fuel it is given never gets stuck. -/
theorem evict_no_stuck (p : BufferPool) (h : p.next_victim_id < p.buffers.length) :
    (p.evict).1 ≠ EvictResult.stuck := by
  apply evictLoop_no_stuck _ _ _ _ h
  unfold evictFuel
  generalize sumUsed p.buffers * (p.buffers.length + 1) = A
  omega

/-- Eviction never touches buffers or handle counts, and never touches
the usage counter of a shared frame. -/
theorem evict_frames (p : BufferPool) (i : Nat) :
    (getFrame (p.evict).2.buffers i).handles = (getFrame p.buffers i).handles ∧
    (getFrame (p.evict).2.buffers i).buffer = (getFrame p.buffers i).buffer ∧
    ((getFrame p.buffers i).handles ≠ 0 →
      (getFrame (p.evict).2.buffers i).used_count = (getFrame p.buffers i).used_count) :=
  evictLoop_frames ..

theorem evict_invFrames (p : BufferPool) (hinv : InvFrames p.buffers) :
    InvFrames (p.evict).2.buffers := by
  intro i hi hh
  rw [evict_buffers_length] at hi
  have hfr := evict_frames p i
  rw [hfr.1] at hh
  rw [hfr.2.2 hh]
  exact hinv i hi hh

/-- A selected victim is in range, unpinned in the pre-state (this is
why the Rc::get_mut unwraps cannot fail), left under the hand, and has
a zero usage counter. Requires the pinning invariant. -/
theorem evict_found_sound (p : BufferPool) (hinv : InvFrames p.buffers)
    {v : Nat} (h : (p.evict).1 = EvictResult.found v) :
    v < p.buffers.length ∧
    (getFrame p.buffers v).handles = 0 ∧
    (getFrame (p.evict).2.buffers v).handles = 0 ∧
    (p.evict).2.next_victim_id = v ∧
    (getFrame (p.evict).2.buffers v).used_count = 0 ∧
    (getFrame (p.evict).2.buffers v).buffer = (getFrame p.buffers v).buffer := by
  have hfound := evictLoop_found (evictFuel p.buffers) p.buffers p.next_victim_id 0 v h
  have hfr := evict_frames p v
  have hv : v < p.buffers.length := hfound.2.1
  have hh0 : (getFrame p.buffers v).handles = 0 := by
    by_contra hne
    have := hfr.2.2 hne
    have hz : (getFrame (p.evict).2.buffers v).used_count = 0 := hfound.2.2
    rw [this] at hz
    exact absurd (hinv v hv hne) (by omega)
  exact ⟨hv, hh0, by rw [hfr.1]; exact hh0, hfound.1, hfound.2.2, hfr.2.1⟩

theorem getFrame_oob {bufs : List Frame} {i : Nat} (h : bufs.length ≤ i) :
    getFrame bufs i = defaultFrame := by
  simp [getFrame, List.getD_eq_getElem?_getD, List.getElem?_eq_none h]

theorem assocLookup_mem {α : Type} : ∀ (t : List (Nat × α)) (k : Nat) (v : α),
    assocLookup t k = some v → (k, v) ∈ t := by
  intro t
  induction t with
  | nil => intro k v h; simp [assocLookup] at h
  | cons e rest ih =>
    intro k v h
    by_cases he : e.1 = k
    · rw [assocLookup, if_pos he] at h
      cases h
      have hke : (k, e.2) = e := by rw [← he]
      rw [hke]
      exact List.mem_cons_self ..
    · rw [assocLookup, if_neg he] at h
      exact List.mem_cons_of_mem _ (ih k v h)

theorem mem_tableRemove : ∀ (t : List (Nat × Nat)) (k : Nat) (e : Nat × Nat),
    e ∈ tableRemove t k → e ∈ t := by
  intro t
  induction t with
  | nil => intro k e h; simp [tableRemove] at h
  | cons x rest ih =>
    intro k e h
    by_cases hx : x.1 = k
    · rw [tableRemove, if_pos hx] at h
      exact List.mem_cons_of_mem _ (ih k e h)
    · rw [tableRemove, if_neg hx] at h
      rcases List.mem_cons.mp h with h1 | h2
      · exact h1 ▸ List.mem_cons_self ..
      · exact List.mem_cons_of_mem _ (ih k e h2)

theorem mem_tableInsert {t : List (Nat × Nat)} {k v : Nat} {e : Nat × Nat}
    (h : e ∈ tableInsert t k v) : e ∈ t ∨ e = (k, v) := by
  rcases List.mem_append.mp h with h1 | h2
  · exact Or.inl (mem_tableRemove t k e h1)
  · exact Or.inr (List.mem_singleton.mp h2)

theorem invFrames_set {bufs : List Frame} (hinv : InvFrames bufs) (i : Nat) (f : Frame)
    (hf : f.handles ≠ 0 → 1 ≤ f.used_count) : InvFrames (bufs.set i f) := by
  intro j hj hh
  rw [List.length_set] at hj
  by_cases hij : i = j
  · subst hij
    by_cases hlt : i < bufs.length
    · rw [getFrame_set_self _ hlt] at hh ⊢
      exact hf hh
    · rw [List.set_eq_of_length_le (by omega)] at hh ⊢
      exact hinv i hj hh
  · rw [getFrame_set_ne _ hij] at hh ⊢
    exact hinv j hj hh

/-- fetch_page preserves the state invariant, on every outcome. -/
theorem inv_fetch (m : BufferPoolManager) (pid : Nat) (hinv : StateInv m) :
    StateInv (m.fetch_page pid).2 := by
  obtain ⟨hhand, hframes, htable⟩ := hinv
  unfold BufferPoolManager.fetch_page
  split
  next bid hl =>
    have hbid : bid < m.pool.buffers.length :=
      htable _ (assocLookup_mem _ _ _ hl)
    refine ⟨?_, ?_, ?_⟩
    · simpa only [List.length_set] using hhand
    · exact invFrames_set hframes _ _ (fun _ => by dsimp only; omega)
    · intro e he
      simpa only [List.length_set] using htable e he
  next hl =>
    split
    next pool1 hev =>
      have hev2 : (m.pool.evict).2 = pool1 := by rw [hev]
      have hlen : pool1.buffers.length = m.pool.buffers.length := by
        rw [← hev2]; exact evict_buffers_length m.pool
      refine ⟨?_, ?_, ?_⟩
      · show pool1.next_victim_id < pool1.buffers.length
        rw [hlen, ← hev2]; exact evict_hand_lt m.pool hhand
      · show InvFrames pool1.buffers
        rw [← hev2]; exact evict_invFrames m.pool hframes
      · intro e he
        show e.2 < pool1.buffers.length
        rw [hlen]; exact htable e he
    next pool1 hev =>
      have hev2 : (m.pool.evict).2 = pool1 := by rw [hev]
      have hlen : pool1.buffers.length = m.pool.buffers.length := by
        rw [← hev2]; exact evict_buffers_length m.pool
      refine ⟨?_, ?_, ?_⟩
      · show pool1.next_victim_id < pool1.buffers.length
        rw [hlen, ← hev2]; exact evict_hand_lt m.pool hhand
      · show InvFrames pool1.buffers
        rw [← hev2]; exact evict_invFrames m.pool hframes
      · intro e he
        show e.2 < pool1.buffers.length
        rw [hlen]; exact htable e he
    next v pool1 hev =>
      have hev2 : (m.pool.evict).2 = pool1 := by rw [hev]
      have hlen : pool1.buffers.length = m.pool.buffers.length := by
        rw [← hev2]; exact evict_buffers_length m.pool
      have hph : pool1.next_victim_id < pool1.buffers.length := by
        rw [hlen, ← hev2]; exact evict_hand_lt m.pool hhand
      have hpf : InvFrames pool1.buffers := by
        rw [← hev2]; exact evict_invFrames m.pool hframes
      have hvs := evict_found_sound m.pool hframes (by rw [hev])
      have hv : v < pool1.buffers.length := by rw [hlen]; exact hvs.1
      dsimp only
      split
      next hpin =>
        exact ⟨hph, hpf, fun e he => by rw [hlen]; exact htable e he⟩
      next hpin =>
        split
        next d1 hw =>
          exact ⟨hph, hpf, fun e he => by rw [hlen]; exact htable e he⟩
        next d1 hw =>
          split
          next d2 hr =>
            refine ⟨?_, ?_, ?_⟩
            · simpa only [List.length_set] using hph
            · refine invFrames_set hpf _ _ (fun hh => ?_)
              exact hpf v hv hh
            · intro e he
              simp only [List.length_set]
              rw [hlen]; exact htable e he
          next data d2 hr =>
            refine ⟨?_, ?_, ?_⟩
            · simpa only [List.length_set] using hph
            · exact invFrames_set hpf _ _ (fun _ => by dsimp only; omega)
            · intro e he
              simp only [List.length_set]
              rcases mem_tableInsert he with h1 | h1
              · rw [hlen]; exact htable e (mem_tableRemove _ _ _ h1)
              · rw [h1, hlen]; exact hvs.1

/-- create_page preserves the state invariant, on every outcome. -/
theorem inv_create (m : BufferPoolManager) (hinv : StateInv m) :
    StateInv (m.create_page).2 := by
  obtain ⟨hhand, hframes, htable⟩ := hinv
  unfold BufferPoolManager.create_page
  split
  next pool1 hev =>
    have hev2 : (m.pool.evict).2 = pool1 := by rw [hev]
    have hlen : pool1.buffers.length = m.pool.buffers.length := by
      rw [← hev2]; exact evict_buffers_length m.pool
    refine ⟨?_, ?_, ?_⟩
    · show pool1.next_victim_id < pool1.buffers.length
      rw [hlen, ← hev2]; exact evict_hand_lt m.pool hhand
    · show InvFrames pool1.buffers
      rw [← hev2]; exact evict_invFrames m.pool hframes
    · intro e he
      show e.2 < pool1.buffers.length
      rw [hlen]; exact htable e he
  next pool1 hev =>
    have hev2 : (m.pool.evict).2 = pool1 := by rw [hev]
    have hlen : pool1.buffers.length = m.pool.buffers.length := by
      rw [← hev2]; exact evict_buffers_length m.pool
    refine ⟨?_, ?_, ?_⟩
    · show pool1.next_victim_id < pool1.buffers.length
      rw [hlen, ← hev2]; exact evict_hand_lt m.pool hhand
    · show InvFrames pool1.buffers
      rw [← hev2]; exact evict_invFrames m.pool hframes
    · intro e he
      show e.2 < pool1.buffers.length
      rw [hlen]; exact htable e he
  next v pool1 hev =>
    have hev2 : (m.pool.evict).2 = pool1 := by rw [hev]
    have hlen : pool1.buffers.length = m.pool.buffers.length := by
      rw [← hev2]; exact evict_buffers_length m.pool
    have hph : pool1.next_victim_id < pool1.buffers.length := by
      rw [hlen, ← hev2]; exact evict_hand_lt m.pool hhand
    have hpf : InvFrames pool1.buffers := by
      rw [← hev2]; exact evict_invFrames m.pool hframes
    have hvs := evict_found_sound m.pool hframes (by rw [hev])
    have hv : v < pool1.buffers.length := by rw [hlen]; exact hvs.1
    dsimp only
    split
    next hpin =>
      exact ⟨hph, hpf, fun e he => by rw [hlen]; exact htable e he⟩
    next hpin =>
      split
      next d1 hw =>
        exact ⟨hph, hpf, fun e he => by rw [hlen]; exact htable e he⟩
      next d1 hw =>
        refine ⟨?_, ?_, ?_⟩
        · simpa only [List.length_set] using hph
        · exact invFrames_set hpf _ _ (fun _ => by dsimp only; omega)
        · intro e he
          simp only [List.length_set]
          rcases mem_tableInsert he with h1 | h1
          · rw [hlen]; exact htable e (mem_tableRemove _ _ _ h1)
          · rw [h1, hlen]; exact hvs.1

/-- flushLoop only clears dirty flags: pool size, usage counters and
handle counts are untouched. -/
theorem flushLoop_inv : ∀ (t : List (Nat × Nat)) (d : DiskManager) (bufs : List Frame)
    (i : Nat),
    ((BufferPoolManager.flushLoop t d bufs).2.2).length = bufs.length ∧
    (getFrame (BufferPoolManager.flushLoop t d bufs).2.2 i).handles =
      (getFrame bufs i).handles ∧
    (getFrame (BufferPoolManager.flushLoop t d bufs).2.2 i).used_count =
      (getFrame bufs i).used_count := by
  intro t
  induction t with
  | nil => intro d bufs i; exact ⟨rfl, rfl, rfl⟩
  | cons e rest ih =>
    intro d bufs i
    unfold BufferPoolManager.flushLoop
    dsimp only
    split
    next d1 hw => exact ⟨rfl, rfl, rfl⟩
    next d1 hw =>
      set bufs1 := bufs.set e.2 { getFrame bufs e.2 with
        buffer := { (getFrame bufs e.2).buffer with is_dirty := false } } with hbufs1
      have hih := ih d1 bufs1 i
      have hl1 : bufs1.length = bufs.length := List.length_set ..
      refine ⟨by rw [hih.1, hl1], ?_, ?_⟩
      · rw [hih.2.1]
        by_cases hie : e.2 = i
        · subst hie
          by_cases hlt : e.2 < bufs.length
          · rw [hbufs1, getFrame_set_self _ hlt]
          · rw [hbufs1, List.set_eq_of_length_le (by omega)]
        · rw [hbufs1, getFrame_set_ne _ hie]
      · rw [hih.2.2]
        by_cases hie : e.2 = i
        · subst hie
          by_cases hlt : e.2 < bufs.length
          · rw [hbufs1, getFrame_set_self _ hlt]
          · rw [hbufs1, List.set_eq_of_length_le (by omega)]
        · rw [hbufs1, getFrame_set_ne _ hie]

/-- flush preserves the state invariant. -/
theorem inv_flush (m : BufferPoolManager) (hinv : StateInv m) :
    StateInv (m.flush).2 := by
  obtain ⟨hhand, hframes, htable⟩ := hinv
  unfold BufferPoolManager.flush
  have key : ∀ (d1 : DiskManager) (bufs1 : List Frame),
      BufferPoolManager.flushLoop m.page_table m.disk m.pool.buffers = (false, d1, bufs1) ∨
      BufferPoolManager.flushLoop m.page_table m.disk m.pool.buffers = (true, d1, bufs1) →
      m.pool.next_victim_id < bufs1.length ∧ InvFrames bufs1 ∧
      ∀ e ∈ m.page_table, e.2 < bufs1.length := by
    intro d1 bufs1 hfl
    have hb1 : (BufferPoolManager.flushLoop m.page_table m.disk m.pool.buffers).2.2 = bufs1 := by
      rcases hfl with h | h <;> rw [h]
    have hfi := fun i => flushLoop_inv m.page_table m.disk m.pool.buffers i
    have hlen : bufs1.length = m.pool.buffers.length := by
      rw [← hb1]; exact (hfi 0).1
    refine ⟨by rw [hlen]; exact hhand, ?_, fun e he => by rw [hlen]; exact htable e he⟩
    intro i hi hh
    rw [hlen] at hi
    rw [← hb1] at hh ⊢
    rw [(hfi i).2.1] at hh
    rw [(hfi i).2.2]
    exact hframes i hi hh
  split
  next d1 bufs1 hfl =>
    have := key d1 bufs1 (Or.inl hfl)
    exact ⟨this.1, this.2.1, this.2.2⟩
  next d1 bufs1 hfl =>
    split
    next sOk d2 hs =>
      have := key d1 bufs1 (Or.inr hfl)
      exact ⟨this.1, this.2.1, this.2.2⟩

/-- Dropping a client handle preserves the state invariant. -/
theorem inv_drop (m : BufferPoolManager) (i : Nat) (hinv : StateInv m) :
    StateInv (m.dropHandle i) := by
  obtain ⟨hhand, hframes, htable⟩ := hinv
  unfold BufferPoolManager.dropHandle
  refine ⟨?_, ?_, ?_⟩
  · simpa only [List.length_set] using hhand
  · refine invFrames_set hframes _ _ (fun hh => ?_)
    have : (getFrame m.pool.buffers i).handles ≠ 0 := by
      intro h0
      rw [h0] at hh
      exact hh rfl
    by_cases hlt : i < m.pool.buffers.length
    · exact hframes i hlt this
    · exfalso
      rw [getFrame_oob (by omega)] at this
      exact this rfl
  · intro e he
    simpa only [List.length_set] using htable e he

theorem getFrame_replicate (n i : Nat) :
    getFrame (List.replicate n defaultFrame) i = defaultFrame := by
  by_cases h : i < n
  · simp [getFrame, List.getD_eq_getElem?_getD, List.getElem?_replicate, h]
  · exact getFrame_oob (by simpa using Nat.le_of_not_lt h)

theorem inv_applyOp (m : BufferPoolManager) (op : Op) (hinv : StateInv m) :
    StateInv (applyOp m op) := by
  cases op with
  | fetch pid => exact inv_fetch m pid hinv
  | create => exact inv_create m hinv
  | flushOp => exact inv_flush m hinv
  | dropOp i => exact inv_drop m i hinv

/-- The invariant holds in every state reachable by public operations. -/
theorem inv_run (m : BufferPoolManager) (ops : List Op) (hinv : StateInv m) :
    StateInv (run m ops) := by
  induction ops generalizing m with
  | nil => exact hinv
  | cons op rest ih => exact ih _ (inv_applyOp m op hinv)

theorem inv_init (pool_size : Nat) (d : DiskManager) (h : 1 ≤ pool_size) :
    StateInv (initManager pool_size d) := by
  refine ⟨?_, ?_, ?_⟩
  · show (0 : Nat) < (List.replicate pool_size defaultFrame).length
    simpa using h
  · intro i hi hh
    have hb : (initManager pool_size d).pool.buffers =
        List.replicate pool_size defaultFrame := rfl
    rw [hb, getFrame_replicate] at hh
    exact absurd rfl hh
  · intro e he
    simp [initManager] at he

/-- Under the invariant, the Rc::get_mut(..).unwrap() in fetch_page
cannot fail. -/
theorem fetch_no_panic (m : BufferPoolManager) (pid : Nat) (hinv : StateInv m) :
    (m.fetch_page pid).1 ≠ PageOutcome.panicked := by
  obtain ⟨hhand, hframes, htable⟩ := hinv
  unfold BufferPoolManager.fetch_page
  split
  next bid hl => simp
  next hl =>
    split
    next pool1 hev => simp
    next pool1 hev => simp
    next v pool1 hev =>
      have hvs := evict_found_sound m.pool hframes (by rw [hev])
      have hev2 : (m.pool.evict).2 = pool1 := by rw [hev]
      dsimp only
      split
      next hpin =>
        exact absurd (by rw [← hev2]; exact hvs.2.2.1) hpin
      next hpin =>
        split
        next d1 hw => simp
        next d1 hw =>
          split
          next d2 hr => simp
          next data d2 hr => simp

/-- Under the invariant, the Rc::get_mut(..).unwrap() in create_page
cannot fail. -/
theorem create_no_panic (m : BufferPoolManager) (hinv : StateInv m) :
    (m.create_page).1 ≠ PageOutcome.panicked := by
  obtain ⟨hhand, hframes, htable⟩ := hinv
  unfold BufferPoolManager.create_page
  split
  next pool1 hev => simp
  next pool1 hev => simp
  next v pool1 hev =>
    have hvs := evict_found_sound m.pool hframes (by rw [hev])
    have hev2 : (m.pool.evict).2 = pool1 := by rw [hev]
    dsimp only
    split
    next hpin =>
      exact absurd (by rw [← hev2]; exact hvs.2.2.1) hpin
    next hpin =>
      split
      next d1 hw => simp
      next d1 hw => simp

/-- Under the invariant, fetch_page never gets stuck in the sweep. -/
theorem fetch_no_stuck (m : BufferPoolManager) (pid : Nat)
    (hhand : m.pool.next_victim_id < m.pool.buffers.length) :
    (m.fetch_page pid).1 ≠ PageOutcome.stuck := by
  unfold BufferPoolManager.fetch_page
  split
  next bid hl => simp
  next hl =>
    split
    next pool1 hev =>
      exact absurd (by rw [hev] : (m.pool.evict).1 = EvictResult.stuck)
        (evict_no_stuck m.pool hhand)
    next pool1 hev => simp
    next v pool1 hev =>
      dsimp only
      split
      next hpin => simp
      next hpin =>
        split
        next d1 hw => simp
        next d1 hw =>
          split
          next d2 hr => simp
          next data d2 hr => simp

/-- Under the invariant, create_page never gets stuck in the sweep. -/
theorem create_no_stuck (m : BufferPoolManager)
    (hhand : m.pool.next_victim_id < m.pool.buffers.length) :
    (m.create_page).1 ≠ PageOutcome.stuck := by
  unfold BufferPoolManager.create_page
  split
  next pool1 hev =>
    exact absurd (by rw [hev] : (m.pool.evict).1 = EvictResult.stuck)
      (evict_no_stuck m.pool hhand)
  next pool1 hev => simp
  next v pool1 hev =>
    dsimp only
    split
    next hpin => simp
    next hpin =>
      split
      next d1 hw => simp
      next d1 hw => simp

set_option maxRecDepth 4000

/-- C2: in every state reachable through the public operations (a pool
of size at least 1, then any sequence of fetch_page, create_page, flush
and handle drops, over any initial heap file and any fault schedule),
every frame whose Buffer is shared with a client handle has
used_count >= 1 and is therefore never selected by the used_count == 0
test; whenever evict returns a victim, that frame's Buffer has the pool
as sole owner, so the Rc::get_mut(..).unwrap() in fetch_page and in
create_page never panics. -/
theorem evict_victim_sole_owner_no_panic
    (pool_size L : Nat) (C : List (Nat × Page)) (F : Nat → Bool) (ops : List Op)
    (s : BufferPoolManager) (hsize : 1 ≤ pool_size)
    (hs : s = run (initManager pool_size (DiskManager.new L C F)) ops) :
    (∀ i, i < s.pool.buffers.length → (getFrame s.pool.buffers i).handles ≠ 0 →
      1 ≤ (getFrame s.pool.buffers i).used_count) ∧
    (∀ v, (s.pool.evict).1 = EvictResult.found v →
      (getFrame s.pool.buffers v).handles = 0) ∧
    (∀ pid, (s.fetch_page pid).1 ≠ PageOutcome.panicked) ∧
    (s.create_page).1 ≠ PageOutcome.panicked := by
  have hinv : StateInv s := by
    rw [hs]
    exact inv_run _ _ (inv_init pool_size _ hsize)
  exact ⟨hinv.2.1,
    fun v hv => (evict_found_sound s.pool hinv.2.1 hv).2.1,
    fun pid => fetch_no_panic s pid hinv,
    create_no_panic s hinv⟩

theorem evict_victim_sole_owner_no_panic_witness :
    ((run (initManager 1 (DiskManager.new 0 [] noFault))
      [Op.create, Op.fetch 0, Op.create]).fetch_page 5).1 ≠ PageOutcome.panicked :=
  (evict_victim_sole_owner_no_panic 1 0 [] noFault [Op.create, Op.fetch 0, Op.create]
    _ (by decide) rfl).2.2.1 5

/-- C9: for every pool state with at least one frame and the clock hand
in range — arbitrary usage counters and an arbitrary pattern of pinned
(shared) and unpinned frames — the clock sweep runs out of neither
frames nor fuel: it returns found or noFree within the fuel bound
sumUsed * (size + 1) + size + 1, and fetch_page and create_page
therefore always run to completion with a result or an error. -/
theorem evict_terminates (m : BufferPoolManager)
    (h : m.pool.next_victim_id < m.pool.buffers.length) :
    (m.pool.evict).1 ≠ EvictResult.stuck ∧
    (∀ pid, (m.fetch_page pid).1 ≠ PageOutcome.stuck) ∧
    (m.create_page).1 ≠ PageOutcome.stuck :=
  ⟨evict_no_stuck m.pool h,
   fun pid => fetch_no_stuck m pid h,
   create_no_stuck m h⟩

theorem evict_terminates_witness :
    (onePoolInit.pool.evict).1 ≠ EvictResult.stuck :=
  (evict_terminates onePoolInit (by decide)).1

/-- C4 as stated is false at a concrete input: on a fresh two-frame
pool, create_page selects victim frame 0, and after the call the clock
hand still points at frame 0 — the caller did not advance the hand past
the reused frame (the claim says it advances it). -/
theorem clock_hand_not_advanced_cex :
    (twoPoolInit.pool.evict).1 = EvictResult.found 0 ∧
    ((twoPoolInit.create_page).2).pool.next_victim_id = 0 ∧
    ((twoPoolInit.create_page).1) = PageOutcome.ok 0 := by
  refine ⟨?_, ?_, ?_⟩ <;> decide

/-- C4 amended: when evict selects a victim, the clock hand
(next_victim_id) is left pointing at the victim frame, and the caller —
fetch_page on a miss, or create_page — leaves it there after reusing
the frame: the hand is not advanced past the victim. -/
theorem clock_hand_left_at_victim (m : BufferPoolManager) (pid v : Nat)
    (hev : (m.pool.evict).1 = EvictResult.found v) :
    (m.pool.evict).2.next_victim_id = v ∧
    (assocLookup m.page_table pid = none →
      (m.fetch_page pid).2.pool.next_victim_id = v) ∧
    (m.create_page).2.pool.next_victim_id = v := by
  have hfound := evictLoop_found (evictFuel m.pool.buffers) m.pool.buffers
    m.pool.next_victim_id 0 v hev
  have hhand : (m.pool.evict).2.next_victim_id = v := hfound.1
  refine ⟨hhand, ?_, ?_⟩
  · intro hmiss
    unfold BufferPoolManager.fetch_page
    split
    next bid hl =>
      rw [hl] at hmiss
      cases hmiss
    next hl =>
      split
      next pool1 hev2 =>
        rw [hev2] at hev; exact absurd hev (by simp)
      next pool1 hev2 =>
        rw [hev2] at hev; exact absurd hev (by simp)
      next w pool1 hev2 =>
        have hp1 : pool1.next_victim_id = v := by
          have h2 : (m.pool.evict).2 = pool1 := by rw [hev2]
          rw [← h2]
          exact hhand
        dsimp only
        split
        next hpin => exact hp1
        next hpin =>
          split
          next d1 hwrite => exact hp1
          next d1 hwrite =>
            split
            next d2 hr => exact hp1
            next data d2 hr => exact hp1
  · unfold BufferPoolManager.create_page
    split
    next pool1 hev2 =>
      rw [hev2] at hev; exact absurd hev (by simp)
    next pool1 hev2 =>
      rw [hev2] at hev; exact absurd hev (by simp)
    next w pool1 hev2 =>
      have hp1 : pool1.next_victim_id = v := by
        have h2 : (m.pool.evict).2 = pool1 := by rw [hev2]
        rw [← h2]
        exact hhand
      dsimp only
      split
      next hpin => exact hp1
      next hpin =>
        split
        next d1 hwrite => exact hp1
        next d1 hwrite => exact hp1

theorem clock_hand_left_at_victim_witness :
    (twoPoolInit.pool.evict).2.next_victim_id = 0 ∧
    (twoPoolInit.create_page).2.pool.next_victim_id = 0 := by
  have h := clock_hand_left_at_victim twoPoolInit 5 0 (by decide)
  exact ⟨h.1, h.2.2⟩

/-- C3: the page-table consistency invariant is the clear intent, and
fetch_page breaks it on its read-error path. After create of page 0,
dropping the handle, and fetch_page(2) — whose disk read fails at
end-of-file because page 2 was never written — the call returns an I/O
error having already renamed the victim buffer: the page table still
maps page 0 to frame 0, but frame 0's buffer now has page_id 2. -/
theorem fetch_read_error_breaks_page_table :
    ((run onePoolInit [Op.create, Op.dropOp 0]).fetch_page 2).1 = PageOutcome.ioError ∧
    (run onePoolInit readFailOps).page_table = [(0, 0)] ∧
    (getFrame (run onePoolInit readFailOps).pool.buffers 0).buffer.page_id = 2 := by
  refine ⟨?_, ?_, ?_⟩ <;> decide

/-- C1: pin safety is the clear intent, and the code breaks its
residency part through the same read-error slip. After the ten
operations of pinLossOps, page 3 is resident in frame 1 with one
outstanding client handle, while the stale frame 0 also carries page
id 3 (left by an earlier failed read). The next call, fetch_page(1)
— a page id different from 3 — evicts frame 0 and removes page 3's
page-table entry: the pinned page is no longer resident, although its
frame and bytes were indeed never touched. -/
theorem pinned_page_loses_residency :
    (assocLookup (run twoPoolInit pinLossOps).page_table 3 = some 1 ∧
     (getFrame (run twoPoolInit pinLossOps).pool.buffers 1).handles = 1 ∧
     (getFrame (run twoPoolInit pinLossOps).pool.buffers 1).buffer.page_id = 3) ∧
    (((run twoPoolInit pinLossOps).fetch_page 1).1 = PageOutcome.ok 0 ∧
     assocLookup ((run twoPoolInit pinLossOps).fetch_page 1).2.page_table 3 = none ∧
     (getFrame ((run twoPoolInit pinLossOps).fetch_page 1).2.pool.buffers 1).handles = 1 ∧
     (getFrame ((run twoPoolInit pinLossOps).fetch_page 1).2.pool.buffers 1).buffer.page_id
       = 3) := by
  refine ⟨⟨?_, ?_, ?_⟩, ?_, ?_, ?_, ?_⟩ <;> decide

/-- All frames pinned makes evict report noFree. -/
theorem evict_all_pinned (p : BufferPool)
    (hhand : p.next_victim_id < p.buffers.length)
    (hall : ∀ i, i < p.buffers.length →
      (getFrame p.buffers i).handles ≠ 0 ∧ (getFrame p.buffers i).used_count ≠ 0) :
    (p.evict).1 = EvictResult.noFree := by
  apply evictLoop_allPinned (evictFuel p.buffers) p.buffers p.next_victim_id 0 hall hhand
    (by omega)
  unfold evictFuel
  generalize sumUsed p.buffers * (p.buffers.length + 1) = A
  omega

/-- C5: with every frame of the pool pinned (each holding a client
handle, usage counters nonzero as the reachable-state invariant
guarantees), a fetch_page of a non-resident page id and a create_page
call return the NoFreeBuffer error value — not a panic — and leave the
page table unchanged; after dropping the single handle of any frame j,
a retry succeeds in selecting a victim: evict returns found and the
retried call no longer reports NoFreeBuffer. -/
theorem all_pinned_exhaustion (m : BufferPoolManager) (pid j : Nat)
    (hhand : m.pool.next_victim_id < m.pool.buffers.length)
    (hall : ∀ i, i < m.pool.buffers.length →
      (getFrame m.pool.buffers i).handles ≠ 0 ∧
      (getFrame m.pool.buffers i).used_count ≠ 0)
    (hmiss : assocLookup m.page_table pid = none)
    (hj : j < m.pool.buffers.length)
    (hj1 : (getFrame m.pool.buffers j).handles = 1) :
    ((m.fetch_page pid).1 = PageOutcome.noFreeBuffer ∧
     (m.fetch_page pid).2.page_table = m.page_table) ∧
    ((m.create_page).1 = PageOutcome.noFreeBuffer ∧
     (m.create_page).2.page_table = m.page_table) ∧
    (∃ w, ((m.dropHandle j).pool.evict).1 = EvictResult.found w) ∧
    ((m.dropHandle j).fetch_page pid).1 ≠ PageOutcome.noFreeBuffer ∧
    ((m.dropHandle j).create_page).1 ≠ PageOutcome.noFreeBuffer := by
  have hnf : (m.pool.evict).1 = EvictResult.noFree := evict_all_pinned m.pool hhand hall
  have hfetch : (m.fetch_page pid).1 = PageOutcome.noFreeBuffer ∧
      (m.fetch_page pid).2.page_table = m.page_table := by
    unfold BufferPoolManager.fetch_page
    split
    next bid hl => rw [hl] at hmiss; cases hmiss
    next hl =>
      split
      next pool1 hev2 => rw [hev2] at hnf; cases hnf
      next pool1 hev2 => exact ⟨rfl, rfl⟩
      next w pool1 hev2 => rw [hev2] at hnf; cases hnf
  have hcreate : (m.create_page).1 = PageOutcome.noFreeBuffer ∧
      (m.create_page).2.page_table = m.page_table := by
    unfold BufferPoolManager.create_page
    split
    next pool1 hev2 => rw [hev2] at hnf; cases hnf
    next pool1 hev2 => exact ⟨rfl, rfl⟩
    next w pool1 hev2 => rw [hev2] at hnf; cases hnf
  -- the state after dropping the one handle of frame j
  set m1 := m.dropHandle j with hm1
  have hbufs1 : m1.pool.buffers = m.pool.buffers.set j
      { getFrame m.pool.buffers j with
        handles := (getFrame m.pool.buffers j).handles - 1 } := rfl
  have hhand1 : m1.pool.next_victim_id = m.pool.next_victim_id := rfl
  have hlen1 : m1.pool.buffers.length = m.pool.buffers.length := by
    rw [hbufs1]; exact List.length_set ..
  have hjun : (getFrame m1.pool.buffers j).handles = 0 := by
    rw [hbufs1, getFrame_set_self _ hj, hj1]
  have hhand1lt : m1.pool.next_victim_id < m1.pool.buffers.length := by
    rw [hhand1, hlen1]; exact hhand
  have hnostuck : (m1.pool.evict).1 ≠ EvictResult.stuck :=
    evict_no_stuck m1.pool hhand1lt
  have hnofree : (m1.pool.evict).1 ≠ EvictResult.noFree := by
    apply evictLoop_not_noFree _ _ _ _ hhand1lt
    refine ⟨(j + m1.pool.buffers.length - m1.pool.next_victim_id) %
      m1.pool.buffers.length, ?_, ?_⟩
    · have := Nat.mod_lt (j + m1.pool.buffers.length - m1.pool.next_victim_id)
        (show 0 < m1.pool.buffers.length by omega)
      omega
    · have hkey : (m1.pool.next_victim_id +
          (j + m1.pool.buffers.length - m1.pool.next_victim_id) %
            m1.pool.buffers.length) % m1.pool.buffers.length = j := by
        rw [Nat.add_mod_mod]
        have h1 : m1.pool.next_victim_id +
            (j + m1.pool.buffers.length - m1.pool.next_victim_id) =
            j + m1.pool.buffers.length := by omega
        rw [h1, Nat.add_mod_right]
        apply Nat.mod_eq_of_lt
        rw [hlen1]; exact hj
      rw [hkey]
      exact hjun
  have hfoundw : ∃ w, (m1.pool.evict).1 = EvictResult.found w := by
    cases hw : (m1.pool.evict).1 with
    | found w => exact ⟨w, rfl⟩
    | noFree => exact absurd hw hnofree
    | stuck => exact absurd hw hnostuck
  refine ⟨hfetch, hcreate, hfoundw, ?_, ?_⟩
  · unfold BufferPoolManager.fetch_page
    split
    next bid hl => simp
    next hl =>
      split
      next pool1 hev2 => simp
      next pool1 hev2 =>
        exact absurd (by rw [hev2] : (m1.pool.evict).1 = EvictResult.noFree) hnofree
      next w pool1 hev2 =>
        dsimp only
        split
        next hpin => simp
        next hpin =>
          split
          next d1 hw => simp
          next d1 hw =>
            split
            next d2 hr => simp
            next data d2 hr => simp
  · unfold BufferPoolManager.create_page
    split
    next pool1 hev2 => simp
    next pool1 hev2 =>
      exact absurd (by rw [hev2] : (m1.pool.evict).1 = EvictResult.noFree) hnofree
    next w pool1 hev2 =>
      dsimp only
      split
      next hpin => simp
      next hpin =>
        split
        next d1 hw => simp
        next d1 hw => simp

theorem all_pinned_exhaustion_witness :
    ((run twoPoolInit [Op.create, Op.create]).fetch_page 5).1 =
      PageOutcome.noFreeBuffer ∧
    (((run twoPoolInit [Op.create, Op.create]).dropHandle 0).fetch_page 5).1 ≠
      PageOutcome.noFreeBuffer := by
  have h := all_pinned_exhaustion (run twoPoolInit [Op.create, Op.create]) 5 0
    (by decide) (by decide) (by decide) (by decide) (by decide)
  exact ⟨h.1.1, h.2.2.2.1⟩

theorem write_page_data_ok (d : DiskManager) (page_id : Nat) (data : Page)
    (hnof : NoFaults d) :
    d.write_page_data page_id data =
      (true,
        { d with
          contents := (pageOffset page_id, data) :: d.contents
          fileSize := max d.fileSize (pageOffset page_id + PAGE_SIZE)
          events := d.events ++ [DiskEvent.write page_id (pageOffset page_id) data]
          opIdx := d.opIdx + 1 }) := by
  unfold DiskManager.write_page_data
  rw [hnof d.opIdx]
  simp

theorem read_page_data_eof (d : DiskManager) (page_id : Nat)
    (hnof : NoFaults d) (hoob : d.fileSize < pageOffset page_id + PAGE_SIZE) :
    d.read_page_data page_id = (none, { d with opIdx := d.opIdx + 1 }) := by
  unfold DiskManager.read_page_data
  rw [hnof d.opIdx]
  simp only [Bool.false_eq_true, if_false]
  rw [if_neg (by omega)]

theorem read_page_data_ok (d : DiskManager) (page_id : Nat)
    (hnof : NoFaults d) (hin : pageOffset page_id + PAGE_SIZE ≤ d.fileSize) :
    d.read_page_data page_id =
      (some ((assocLookup d.contents (pageOffset page_id)).getD defaultPage),
        { d with
          events := d.events ++ [DiskEvent.read page_id (pageOffset page_id)]
          opIdx := d.opIdx + 1 }) := by
  unfold DiskManager.read_page_data
  rw [hnof d.opIdx]
  simp only [Bool.false_eq_true, if_false]
  rw [if_pos hin]

theorem sync_ok (d : DiskManager) (hnof : NoFaults d) :
    d.sync = (true,
      { d with events := d.events ++ [DiskEvent.sync], opIdx := d.opIdx + 1 }) := by
  unfold DiskManager.sync
  rw [hnof d.opIdx]
  simp

/-- C8: allocate_page never fails: each call returns the current
counter and increments it by one, so within one DiskManager lifetime
the k-th allocation returns next_page_id + k and ids are strictly
increasing with no reuse; a DiskManager constructed over a heap file of
L bytes resumes allocation at L / PAGE_SIZE (0 for an empty file), and
every page wholly contained in those L bytes has an id strictly below
all newly allocated ids. -/
theorem allocate_page_monotonic :
    (∀ d : DiskManager, d.allocate_page =
      (d.next_page_id, { d with next_page_id := d.next_page_id + 1 })) ∧
    (∀ d : DiskManager,
      (d.allocate_page).1 < ((d.allocate_page).2.allocate_page).1) ∧
    (∀ (d : DiskManager) (k : Nat),
      (((fun x => (DiskManager.allocate_page x).2)^[k]) d).next_page_id =
        d.next_page_id + k) ∧
    (∀ (L : Nat) (C : List (Nat × Page)) (F : Nat → Bool),
      (DiskManager.new L C F).next_page_id = L / PAGE_SIZE ∧
      (DiskManager.new 0 C F).next_page_id = 0 ∧
      (∀ p, PAGE_SIZE * (p + 1) ≤ L →
        p < (DiskManager.new L C F).next_page_id)) := by
  refine ⟨fun d => rfl, fun d => Nat.lt_succ_self _, ?_, ?_⟩
  · intro d k
    induction k generalizing d with
    | zero => rfl
    | succ n ih =>
      rw [Function.iterate_succ_apply]
      rw [ih]
      show d.next_page_id + 1 + n = d.next_page_id + (n + 1)
      omega
  · intro L C F
    refine ⟨rfl, rfl, ?_⟩
    intro p hp
    show p < L / PAGE_SIZE
    have h1 : p + 1 ≤ L / PAGE_SIZE := by
      rw [Nat.le_div_iff_mul_le (by decide : 0 < PAGE_SIZE)]
      calc (p + 1) * PAGE_SIZE = PAGE_SIZE * (p + 1) := Nat.mul_comm ..
        _ ≤ L := hp
    omega

theorem allocate_page_monotonic_witness :
    0 < (DiskManager.new 8192 [] noFault).next_page_id :=
  (allocate_page_monotonic.2.2.2 8192 [] noFault).2.2 0 (by decide)

/-- C10: fetch_page does not reject the reserved sentinel id. Called
with INVALID_PAGE_ID (u64::MAX) when that id is not resident and a
victim is available, it proceeds through eviction — write-back of a
dirty victim included — renames the victim buffer to the sentinel id,
and issues read_page_data, whose offset computation
PAGE_SIZE * page_id wraps modulo 2^64 to 2^64 - 4096; the read then
fails past end-of-file and the call returns an I/O error after those
state changes, not a validation error before them (no validation path
exists). -/
theorem fetch_invalid_page_id (m : BufferPoolManager) (v : Nat)
    (hmiss : assocLookup m.page_table INVALID_PAGE_ID = none)
    (hev : (m.pool.evict).1 = EvictResult.found v)
    (hpin : (getFrame (m.pool.evict).2.buffers v).handles = 0)
    (hnof : NoFaults m.disk)
    (hsize : m.disk.fileSize < U64)
    (hold : (getFrame (m.pool.evict).2.buffers v).buffer.is_dirty = true →
      PAGE_SIZE * (getFrame (m.pool.evict).2.buffers v).buffer.page_id +
        PAGE_SIZE < U64) :
    pageOffset INVALID_PAGE_ID = U64 - PAGE_SIZE ∧
    (m.fetch_page INVALID_PAGE_ID).1 = PageOutcome.ioError ∧
    (getFrame (m.fetch_page INVALID_PAGE_ID).2.pool.buffers v).buffer.page_id =
      INVALID_PAGE_ID ∧
    (m.fetch_page INVALID_PAGE_ID).2.disk.opIdx = m.disk.opIdx +
      (if (getFrame (m.pool.evict).2.buffers v).buffer.is_dirty then 2 else 1) := by
  have hoff : pageOffset INVALID_PAGE_ID = U64 - PAGE_SIZE := by decide
  have hU : U64 - PAGE_SIZE + PAGE_SIZE = U64 := by decide
  refine ⟨hoff, ?_⟩
  unfold BufferPoolManager.fetch_page
  split
  next bid hl => rw [hl] at hmiss; cases hmiss
  next hl =>
    split
    next pool1 hev2 => rw [hev2] at hev; exact absurd hev (by simp)
    next pool1 hev2 => rw [hev2] at hev; exact absurd hev (by simp)
    next w pool1 hev2 =>
      have hev2s : (m.pool.evict).2 = pool1 := by rw [hev2]
      have hwv : w = v := by
        rw [hev2] at hev
        simpa using hev
      subst hwv
      rw [hev2s] at hpin hold
      have hv_lt : w < pool1.buffers.length := by
        have h1 := (evictLoop_found (evictFuel m.pool.buffers) m.pool.buffers
          m.pool.next_victim_id 0 w hev).2.1
        have h2 : pool1.buffers.length = m.pool.buffers.length := by
          rw [← hev2s]; exact evict_buffers_length m.pool
        omega
      dsimp only
      split
      next hpin2 => exact absurd hpin hpin2
      next hpin2 =>
        split
        next d1 hw2 =>
          exfalso
          by_cases hdirty : (getFrame pool1.buffers w).buffer.is_dirty = true
          · rw [if_pos hdirty, write_page_data_ok _ _ _ hnof] at hw2
            cases hw2
          · rw [if_neg hdirty] at hw2
            cases hw2
        next d1 hw2 =>
          by_cases hdirty : (getFrame pool1.buffers w).buffer.is_dirty = true
          · rw [if_pos hdirty, write_page_data_ok _ _ _ hnof] at hw2
            injection hw2 with hb hd
            subst hd
            have hnof1 : NoFaults { m.disk with
                contents := (pageOffset (getFrame pool1.buffers w).buffer.page_id,
                  (getFrame pool1.buffers w).buffer.page) :: m.disk.contents
                fileSize := max m.disk.fileSize
                  (pageOffset (getFrame pool1.buffers w).buffer.page_id + PAGE_SIZE)
                events := m.disk.events ++ [DiskEvent.write
                  (getFrame pool1.buffers w).buffer.page_id
                  (pageOffset (getFrame pool1.buffers w).buffer.page_id)
                  (getFrame pool1.buffers w).buffer.page]
                opIdx := m.disk.opIdx + 1 } := fun k => hnof k
            have hofl : pageOffset (getFrame pool1.buffers w).buffer.page_id +
                PAGE_SIZE < U64 := by
              have h3 := hold hdirty
              have h4 : pageOffset (getFrame pool1.buffers w).buffer.page_id ≤
                  PAGE_SIZE * (getFrame pool1.buffers w).buffer.page_id :=
                Nat.mod_le ..
              omega
            split
            next d2 hr =>
              rw [read_page_data_eof _ _ hnof1 (by
                show max m.disk.fileSize _ < pageOffset INVALID_PAGE_ID + PAGE_SIZE
                rw [hoff, hU]
                omega)] at hr
              injection hr with hn hd2
              subst hd2
              refine ⟨rfl, ?_, ?_⟩
              · rw [show ((PageOutcome.ioError, { m with
                    disk := _, pool := { pool1 with buffers := pool1.buffers.set w _ } }) :
                    PageOutcome × BufferPoolManager).2.pool.buffers =
                    pool1.buffers.set w { getFrame pool1.buffers w with
                      buffer := { (getFrame pool1.buffers w).buffer with
                        page_id := INVALID_PAGE_ID, is_dirty := false } } from rfl]
                rw [getFrame_set_self _ hv_lt]
              · rw [hev2s, if_pos hdirty]
            next data d2 hr =>
              rw [read_page_data_eof _ _ hnof1 (by
                show max m.disk.fileSize _ < pageOffset INVALID_PAGE_ID + PAGE_SIZE
                rw [hoff, hU]
                omega)] at hr
              cases hr
          · rw [if_neg hdirty] at hw2
            injection hw2 with hb hd
            subst hd
            split
            next d2 hr =>
              rw [read_page_data_eof _ _ hnof (by rw [hoff, hU]; omega)] at hr
              injection hr with hn hd2
              subst hd2
              refine ⟨rfl, ?_, ?_⟩
              · rw [show ((PageOutcome.ioError, { m with
                    disk := _, pool := { pool1 with buffers := pool1.buffers.set w _ } }) :
                    PageOutcome × BufferPoolManager).2.pool.buffers =
                    pool1.buffers.set w { getFrame pool1.buffers w with
                      buffer := { (getFrame pool1.buffers w).buffer with
                        page_id := INVALID_PAGE_ID, is_dirty := false } } from rfl]
                rw [getFrame_set_self _ hv_lt]
              · rw [hev2s, if_neg hdirty]
            next data d2 hr =>
              rw [read_page_data_eof _ _ hnof (by rw [hoff, hU]; omega)] at hr
              cases hr

theorem fetch_invalid_page_id_witness :
    (onePoolInit.fetch_page INVALID_PAGE_ID).1 = PageOutcome.ioError ∧
    (getFrame (onePoolInit.fetch_page INVALID_PAGE_ID).2.pool.buffers 0).buffer.page_id =
      INVALID_PAGE_ID := by
  have h := fetch_invalid_page_id onePoolInit 0 (by decide) (by decide) (by decide)
    (fun k => rfl) (by decide) (by decide)
  exact ⟨h.2.1, h.2.2.1⟩

/-- C6: on a fetch_page miss and on every create_page call, the victim
frame's old bytes are written to disk at the frame's old page id
exactly when the victim Buffer's dirty flag is set, and this write-back
is journalled before the read that refills the Buffer with the new
page — evicting a clean victim appends no write for the old page. The
disk journal delta of the miss path is: the write-back (iff dirty)
followed by the read of the requested page (iff it is within the file,
whose size accounts for the write-back); create_page's delta is the
write-back alone (iff dirty). -/
theorem eviction_writeback_iff_dirty (m : BufferPoolManager) (pid v : Nat) (old : Buffer)
    (hfr : InvFrames m.pool.buffers)
    (hmiss : assocLookup m.page_table pid = none)
    (hev : (m.pool.evict).1 = EvictResult.found v)
    (holdeq : old = (getFrame (m.pool.evict).2.buffers v).buffer)
    (hnof : NoFaults m.disk) :
    ((m.fetch_page pid).2.disk.events =
      m.disk.events ++
      (if old.is_dirty then
        [DiskEvent.write old.page_id (pageOffset old.page_id) old.page] else []) ++
      (if pageOffset pid + PAGE_SIZE ≤
          (if old.is_dirty then max m.disk.fileSize (pageOffset old.page_id + PAGE_SIZE)
           else m.disk.fileSize)
       then [DiskEvent.read pid (pageOffset pid)] else [])) ∧
    ((m.create_page).2.disk.events =
      m.disk.events ++
      (if old.is_dirty then
        [DiskEvent.write old.page_id (pageOffset old.page_id) old.page] else [])) := by
  have hpin : (getFrame (m.pool.evict).2.buffers v).handles = 0 :=
    (evict_found_sound m.pool hfr hev).2.2.1
  constructor
  · unfold BufferPoolManager.fetch_page
    split
    next bid hl => rw [hl] at hmiss; cases hmiss
    next hl =>
      split
      next pool1 hev2 => rw [hev2] at hev; exact absurd hev (by simp)
      next pool1 hev2 => rw [hev2] at hev; exact absurd hev (by simp)
      next w pool1 hev2 =>
        have hev2s : (m.pool.evict).2 = pool1 := by rw [hev2]
        have hwv : w = v := by rw [hev2] at hev; simpa using hev
        subst hwv
        rw [hev2s] at hpin holdeq
        subst holdeq
        dsimp only
        split
        next hpin2 => exact absurd hpin hpin2
        next hpin2 =>
          split
          next d1 hw2 =>
            exfalso
            by_cases hdirty : (getFrame pool1.buffers w).buffer.is_dirty = true
            · rw [if_pos hdirty, write_page_data_ok _ _ _ hnof] at hw2
              cases hw2
            · rw [if_neg hdirty] at hw2
              cases hw2
          next d1 hw2 =>
            by_cases hdirty : (getFrame pool1.buffers w).buffer.is_dirty = true
            · rw [if_pos hdirty, write_page_data_ok _ _ _ hnof] at hw2
              injection hw2 with hb hd
              subst hd
              rw [if_pos hdirty, if_pos hdirty]
              have hnof1 : NoFaults { m.disk with
                  contents := (pageOffset (getFrame pool1.buffers w).buffer.page_id,
                    (getFrame pool1.buffers w).buffer.page) :: m.disk.contents
                  fileSize := max m.disk.fileSize
                    (pageOffset (getFrame pool1.buffers w).buffer.page_id + PAGE_SIZE)
                  events := m.disk.events ++ [DiskEvent.write
                    (getFrame pool1.buffers w).buffer.page_id
                    (pageOffset (getFrame pool1.buffers w).buffer.page_id)
                    (getFrame pool1.buffers w).buffer.page]
                  opIdx := m.disk.opIdx + 1 } := fun k => hnof k
              by_cases hin : pageOffset pid + PAGE_SIZE ≤
                  max m.disk.fileSize
                    (pageOffset (getFrame pool1.buffers w).buffer.page_id + PAGE_SIZE)
              · rw [if_pos hin]
                split
                next d2 hr =>
                  rw [read_page_data_ok _ _ hnof1 hin] at hr
                  cases hr
                next data d2 hr =>
                  rw [read_page_data_ok _ _ hnof1 hin] at hr
                  injection hr with hs hd2
                  subst hd2
                  rfl
              · rw [if_neg hin]
                have hoob : max m.disk.fileSize
                    (pageOffset (getFrame pool1.buffers w).buffer.page_id + PAGE_SIZE) <
                    pageOffset pid + PAGE_SIZE := by omega
                split
                next d2 hr =>
                  rw [read_page_data_eof _ _ hnof1 hoob] at hr
                  injection hr with hs hd2
                  subst hd2
                  rw [List.append_nil]
                next data d2 hr =>
                  rw [read_page_data_eof _ _ hnof1 hoob] at hr
                  cases hr
            · rw [if_neg hdirty] at hw2
              injection hw2 with hb hd
              subst hd
              rw [if_neg hdirty, if_neg hdirty, List.append_nil]
              by_cases hin : pageOffset pid + PAGE_SIZE ≤ m.disk.fileSize
              · rw [if_pos hin]
                split
                next d2 hr =>
                  rw [read_page_data_ok _ _ hnof hin] at hr
                  cases hr
                next data d2 hr =>
                  rw [read_page_data_ok _ _ hnof hin] at hr
                  injection hr with hs hd2
                  subst hd2
                  rfl
              · rw [if_neg hin]
                split
                next d2 hr =>
                  rw [read_page_data_eof _ _ hnof (by omega)] at hr
                  injection hr with hs hd2
                  subst hd2
                  rw [List.append_nil]
                next data d2 hr =>
                  rw [read_page_data_eof _ _ hnof (by omega)] at hr
                  cases hr
  · unfold BufferPoolManager.create_page
    split
    next pool1 hev2 => rw [hev2] at hev; exact absurd hev (by simp)
    next pool1 hev2 => rw [hev2] at hev; exact absurd hev (by simp)
    next w pool1 hev2 =>
      have hev2s : (m.pool.evict).2 = pool1 := by rw [hev2]
      have hwv : w = v := by rw [hev2] at hev; simpa using hev
      subst hwv
      rw [hev2s] at hpin holdeq
      subst holdeq
      dsimp only
      split
      next hpin2 => exact absurd hpin hpin2
      next hpin2 =>
        split
        next d1 hw2 =>
          exfalso
          by_cases hdirty : (getFrame pool1.buffers w).buffer.is_dirty = true
          · rw [if_pos hdirty, write_page_data_ok _ _ _ hnof] at hw2
            cases hw2
          · rw [if_neg hdirty] at hw2
            cases hw2
        next d1 hw2 =>
          by_cases hdirty : (getFrame pool1.buffers w).buffer.is_dirty = true
          · rw [if_pos hdirty, write_page_data_ok _ _ _ hnof] at hw2
            injection hw2 with hb hd
            subst hd
            rw [if_pos hdirty]
            rfl
          · rw [if_neg hdirty] at hw2
            injection hw2 with hb hd
            subst hd
            rw [if_neg hdirty, List.append_nil]
            rfl

theorem write_page_data_cases (d : DiskManager) (pid : Nat) (data : Page) :
    (d.faults d.opIdx = true ∧
      d.write_page_data pid data = (false, { d with opIdx := d.opIdx + 1 })) ∨
    d.write_page_data pid data =
      (true,
        { d with
          contents := (pageOffset pid, data) :: d.contents
          fileSize := max d.fileSize (pageOffset pid + PAGE_SIZE)
          events := d.events ++ [DiskEvent.write pid (pageOffset pid) data]
          opIdx := d.opIdx + 1 }) := by
  unfold DiskManager.write_page_data
  by_cases hf : d.faults d.opIdx = true
  · left
    exact ⟨hf, by rw [if_pos hf]⟩
  · right
    rw [if_neg hf]

theorem sync_cases (d : DiskManager) :
    (d.sync = (false, { d with opIdx := d.opIdx + 1 })) ∨
    (d.sync = (true,
      { d with events := d.events ++ [DiskEvent.sync], opIdx := d.opIdx + 1 })) := by
  unfold DiskManager.sync
  by_cases hf : d.faults d.opIdx = true
  · left; rw [if_pos hf]
  · right; rw [if_neg hf]

theorem flushLoop_cons_fail {e : Nat × Nat} {rest : List (Nat × Nat)}
    {d d1 : DiskManager} {bufs : List Frame}
    (hw : d.write_page_data e.1 (getFrame bufs e.2).buffer.page = (false, d1)) :
    BufferPoolManager.flushLoop (e :: rest) d bufs = (false, d1, bufs) := by
  simp only [BufferPoolManager.flushLoop]
  rw [hw]

theorem flushLoop_cons_ok {e : Nat × Nat} {rest : List (Nat × Nat)}
    {d d1 : DiskManager} {bufs : List Frame}
    (hw : d.write_page_data e.1 (getFrame bufs e.2).buffer.page = (true, d1)) :
    BufferPoolManager.flushLoop (e :: rest) d bufs =
      BufferPoolManager.flushLoop rest d1
        (bufs.set e.2 { getFrame bufs e.2 with
          buffer := { (getFrame bufs e.2).buffer with is_dirty := false } }) := by
  simp only [BufferPoolManager.flushLoop]
  rw [hw]

theorem map_write_congr (t : List (Nat × Nat)) (bufs1 bufs2 : List Frame)
    (h : ∀ j, (getFrame bufs1 j).buffer.page = (getFrame bufs2 j).buffer.page) :
    t.map (fun e => DiskEvent.write e.1 (pageOffset e.1)
      ((getFrame bufs1 e.2).buffer.page)) =
    t.map (fun e => DiskEvent.write e.1 (pageOffset e.1)
      ((getFrame bufs2 e.2).buffer.page)) := by
  induction t with
  | nil => rfl
  | cons e rest ih => simp [ih, h]

/-- Frame facts for the dirty-clearing set used by flushLoop. -/
theorem clear_dirty_page_eq (bufs : List Frame) (i j : Nat) :
    (getFrame (bufs.set i { getFrame bufs i with
      buffer := { (getFrame bufs i).buffer with is_dirty := false } }) j).buffer.page =
    (getFrame bufs j).buffer.page := by
  by_cases hij : i = j
  · subst hij
    by_cases hlt : i < bufs.length
    · rw [getFrame_set_self _ hlt]
    · rw [List.set_eq_of_length_le (by omega)]
  · rw [getFrame_set_ne _ hij]

theorem clear_dirty_mono (bufs : List Frame) (i j : Nat)
    (h : (getFrame (bufs.set i { getFrame bufs i with
      buffer := { (getFrame bufs i).buffer with is_dirty := false } }) j).buffer.is_dirty
      = true) :
    (getFrame bufs j).buffer.is_dirty = true := by
  by_cases hij : i = j
  · subst hij
    by_cases hlt : i < bufs.length
    · rw [getFrame_set_self _ hlt] at h
      cases h
    · rwa [List.set_eq_of_length_le (by omega)] at h
  · rwa [getFrame_set_ne _ hij] at h

/-- When every per-page write of flushLoop succeeded, the journal grew
by exactly one write per page-table entry, in table order, carrying
each frame's current bytes; the fault schedule is untouched; pages and
page ids are untouched; and the dirty flag of every processed entry's
frame is cleared. -/
theorem flushLoop_true : ∀ (t : List (Nat × Nat)) (d : DiskManager) (bufs : List Frame),
    (BufferPoolManager.flushLoop t d bufs).1 = true →
    (BufferPoolManager.flushLoop t d bufs).2.1.events =
      d.events ++ t.map (fun e => DiskEvent.write e.1 (pageOffset e.1)
        ((getFrame bufs e.2).buffer.page)) ∧
    (BufferPoolManager.flushLoop t d bufs).2.1.faults = d.faults ∧
    (∀ j, (getFrame (BufferPoolManager.flushLoop t d bufs).2.2 j).buffer.page =
      (getFrame bufs j).buffer.page) ∧
    (∀ j, (getFrame (BufferPoolManager.flushLoop t d bufs).2.2 j).buffer.is_dirty = true →
      (getFrame bufs j).buffer.is_dirty = true) ∧
    (∀ e ∈ t, e.2 < bufs.length →
      (getFrame (BufferPoolManager.flushLoop t d bufs).2.2 e.2).buffer.is_dirty = false) := by
  intro t
  induction t with
  | nil =>
    intro d bufs _
    refine ⟨by simp only [List.map_nil, List.append_nil]; rfl, rfl, fun j => rfl,
      fun j h => h, fun e he => absurd he (by simp)⟩
  | cons e rest ih =>
    intro d bufs htrue
    rcases write_page_data_cases d e.1 (getFrame bufs e.2).buffer.page with ⟨hf, hw⟩ | hw
    · rw [flushLoop_cons_fail hw] at htrue
      cases htrue
    · rw [flushLoop_cons_ok hw] at htrue ⊢
      set bufs1 := bufs.set e.2 { getFrame bufs e.2 with
        buffer := { (getFrame bufs e.2).buffer with is_dirty := false } } with hbufs1
      have hlen1 : bufs1.length = bufs.length := List.length_set ..
      have hih := ih _ bufs1 htrue
      have hpage1 : ∀ j, (getFrame bufs1 j).buffer.page = (getFrame bufs j).buffer.page :=
        fun j => clear_dirty_page_eq bufs e.2 j
      refine ⟨?_, ?_, ?_, ?_, ?_⟩
      · rw [hih.1]
        rw [map_write_congr rest bufs1 bufs hpage1]
        show (d.events ++ [_]) ++ _ = _
        rw [List.append_assoc]
        rfl
      · rw [hih.2.1]
      · intro j
        rw [hih.2.2.1 j, hpage1 j]
      · intro j hj
        exact clear_dirty_mono bufs e.2 j (hih.2.2.2.1 j hj)
      · intro x hx hxlt
        rcases List.mem_cons.mp hx with hx1 | hx2
        · subst hx1
          cases hb : (getFrame (BufferPoolManager.flushLoop rest _ bufs1).2.2
              x.2).buffer.is_dirty
          · rfl
          · exfalso
            have := hih.2.2.2.1 x.2 hb
            rw [hbufs1, getFrame_set_self _ hxlt] at this
            cases this
        · exact hih.2.2.2.2 x hx2 (by rw [hlen1]; exact hxlt)

/-- With a fault-free device every per-page write of flushLoop
succeeds. -/
theorem flushLoop_noFaults_true : ∀ (t : List (Nat × Nat)) (d : DiskManager)
    (bufs : List Frame), NoFaults d →
    (BufferPoolManager.flushLoop t d bufs).1 = true := by
  intro t
  induction t with
  | nil => intro d bufs _; rfl
  | cons e rest ih =>
    intro d bufs hnof
    rw [flushLoop_cons_ok (write_page_data_ok d e.1 _ hnof)]
    exact ih _ _ (fun k => hnof k)

/-- When flushLoop stops at the first failing write, the journal grew
by the writes of an initial prefix of the entries only. -/
theorem flushLoop_false : ∀ (t : List (Nat × Nat)) (d : DiskManager) (bufs : List Frame),
    (BufferPoolManager.flushLoop t d bufs).1 = false →
    ∃ k, k ≤ t.length ∧
      (BufferPoolManager.flushLoop t d bufs).2.1.events =
        d.events ++ (t.take k).map (fun e => DiskEvent.write e.1 (pageOffset e.1)
          ((getFrame bufs e.2).buffer.page)) := by
  intro t
  induction t with
  | nil => intro d bufs h; cases h
  | cons e rest ih =>
    intro d bufs hfalse
    rcases write_page_data_cases d e.1 (getFrame bufs e.2).buffer.page with ⟨hf, hw⟩ | hw
    · rw [flushLoop_cons_fail hw] at hfalse ⊢
      exact ⟨0, by omega, by simp⟩
    · rw [flushLoop_cons_ok hw] at hfalse ⊢
      set bufs1 := bufs.set e.2 { getFrame bufs e.2 with
        buffer := { (getFrame bufs e.2).buffer with is_dirty := false } } with hbufs1
      have hpage1 : ∀ j, (getFrame bufs1 j).buffer.page = (getFrame bufs j).buffer.page :=
        fun j => clear_dirty_page_eq bufs e.2 j
      obtain ⟨k, hk, hev⟩ := ih _ bufs1 hfalse
      refine ⟨k + 1, by simpa using hk, ?_⟩
      rw [hev]
      rw [map_write_congr (rest.take k) bufs1 bufs hpage1]
      show (d.events ++ [_]) ++ _ = _
      rw [List.append_assoc]
      rfl

/-- C7: flush writes the current bytes of every page in the page table
to disk at its page id and clears its dirty flag (clean pages
included), and issues exactly one sync after all per-page writes when
every write succeeds; otherwise it returns the error and the journal
shows only the writes of an initial prefix of the entries — earlier
per-page writes stay in place, no sync is issued, no cross-page
atomicity. -/
theorem flush_spec (m : BufferPoolManager)
    (ht : ∀ e ∈ m.page_table, e.2 < m.pool.buffers.length) :
    (NoFaults m.disk →
      (m.flush).1 = true ∧
      (m.flush).2.disk.events = m.disk.events ++
        m.page_table.map (fun e => DiskEvent.write e.1 (pageOffset e.1)
          ((getFrame m.pool.buffers e.2).buffer.page)) ++ [DiskEvent.sync] ∧
      (∀ e ∈ m.page_table,
        (getFrame (m.flush).2.pool.buffers e.2).buffer.is_dirty = false)) ∧
    ((m.flush).1 = false →
      ∃ k, k ≤ m.page_table.length ∧
        (m.flush).2.disk.events = m.disk.events ++
          (m.page_table.take k).map (fun e => DiskEvent.write e.1 (pageOffset e.1)
            ((getFrame m.pool.buffers e.2).buffer.page))) := by
  unfold BufferPoolManager.flush
  split
  next d1 bufs1 hfl =>
    -- a per-page write failed
    constructor
    · intro hnof
      exact absurd (by rw [hfl] : (BufferPoolManager.flushLoop m.page_table m.disk
          m.pool.buffers).1 = false)
        (by rw [flushLoop_noFaults_true m.page_table m.disk m.pool.buffers hnof]; simp)
    · intro _
      obtain ⟨k, hk, hev⟩ := flushLoop_false m.page_table m.disk m.pool.buffers
        (by rw [hfl])
      exact ⟨k, hk, by rw [← hev, hfl]⟩
  next d1 bufs1 hfl =>
    -- every per-page write succeeded; then one sync
    have htrue : (BufferPoolManager.flushLoop m.page_table m.disk m.pool.buffers).1 =
        true := by rw [hfl]
    have hflt := flushLoop_true m.page_table m.disk m.pool.buffers htrue
    have hd1ev : d1.events = m.disk.events ++
        m.page_table.map (fun e => DiskEvent.write e.1 (pageOffset e.1)
          ((getFrame m.pool.buffers e.2).buffer.page)) := by
      rw [← hflt.1, hfl]
    have hd1f : d1.faults = m.disk.faults := by rw [← hflt.2.1, hfl]
    have hb1 : (BufferPoolManager.flushLoop m.page_table m.disk m.pool.buffers).2.2 =
        bufs1 := by rw [hfl]
    split
    next sOk d2 hs =>
      constructor
      · intro hnof
        have hnof1 : NoFaults d1 := by
          intro k
          rw [hd1f]
          exact hnof k
        rw [sync_ok d1 hnof1] at hs
        injection hs with hs1 hs2
        subst hs1
        subst hs2
        refine ⟨rfl, ?_, ?_⟩
        · show d1.events ++ [DiskEvent.sync] = _
          rw [hd1ev]
        · intro e he
          show (getFrame bufs1 e.2).buffer.is_dirty = false
          rw [← hb1]
          exact hflt.2.2.2.2 e he (ht e he)
      · intro hfail
        rcases sync_cases d1 with hsc | hsc
        · rw [hsc] at hs
          injection hs with hs1 hs2
          subst hs1
          subst hs2
          refine ⟨m.page_table.length, le_refl _, ?_⟩
          show d1.events = _
          rw [List.take_length, hd1ev]
        · rw [hsc] at hs
          injection hs with hs1 hs2
          subst hs1
          cases hfail

theorem eviction_writeback_iff_dirty_witness :
    ((run onePoolInit [Op.create, Op.dropOp 0]).fetch_page 5).2.disk.events =
      [DiskEvent.write 0 0 defaultPage] := by
  have h := (eviction_writeback_iff_dirty (run onePoolInit [Op.create, Op.dropOp 0])
    5 0 { page_id := 0, page := defaultPage, is_dirty := true }
    (by unfold InvFrames; decide) (by decide) (by decide) rfl (fun k => rfl)).1
  rw [h]
  rfl

theorem flush_spec_witness :
    ((run onePoolInit [Op.create, Op.dropOp 0]).flush).1 = true ∧
    ((run onePoolInit [Op.create, Op.dropOp 0]).flush).2.disk.events =
      [DiskEvent.write 0 0 defaultPage, DiskEvent.sync] := by
  have h := (flush_spec (run onePoolInit [Op.create, Op.dropOp 0])
    (by decide)).1 (fun k => rfl)
  refine ⟨h.1, ?_⟩
  rw [h.2.1]
  rfl
